import Mathlib

/-!
Verification of the value codec and routing-key composer of the Cassandra
CQL driver (`lib/encoder.js`).

The JavaScript source is shallowly embedded: JS values become the inductive
`JsValue`, Node `Buffer`s become `List Nat` (byte lists), exceptions become
`Except String`, and the numeric line is restricted to integral JS numbers
(`Int`); every place where a fractional or platform-specific behaviour is cut
off is marked by an explicit `.error "float model: ..."`-style result and a
comment.  Buffer read/write primitives follow Node's (v0.12-era) semantics:
`writeInt16BE`/`writeUInt16BE`/`writeInt32BE` coerce their argument with `+`
and throw on out-of-bounds values, `Buffer.concat` throws when a list entry
is `null`, and `slice` clamps.
-/

namespace CqlEnc

/-- A Node.js `Buffer` modelled as a list of byte values (each `< 256` by
construction on every path that builds one). -/
abbrev Buffer := List Nat

/-- Big-endian unsigned read of a whole byte list. -/
def readBE (bs : Buffer) : Nat := bs.foldl (fun a b => a * 256 + b) 0

/-- Fixed-width big-endian bytes of `n` (`k` bytes, value taken `mod 2^(8k)`),
most significant byte first. -/
def beBytes : Nat → Nat → Buffer
  | 0, _ => []
  | k+1, n => (n / 256 ^ k) % 256 :: beBytes k n

theorem beBytes_length (k n : Nat) : (beBytes k n).length = k := by
  induction k generalizing n with
  | zero => rfl
  | succ k ih => simp [beBytes, ih]

theorem beBytes_lt (k n : Nat) : ∀ x ∈ beBytes k n, x < 256 := by
  induction k generalizing n with
  | zero => simp [beBytes]
  | succ k ih =>
    intro x hx
    simp only [beBytes, List.mem_cons] at hx
    rcases hx with h | h
    · omega
    · exact ih n x h

theorem mod_pow_succ_split (k n : Nat) :
    n % 256 ^ (k + 1) = 256 ^ k * (n / 256 ^ k % 256) + n % 256 ^ k := by
  have hdvd : (256 : Nat) ^ k ∣ 256 ^ (k + 1) := pow_dvd_pow 256 (Nat.le_succ k)
  have h1 : n % 256 ^ (k + 1) % 256 ^ k = n % 256 ^ k := Nat.mod_mod_of_dvd n hdvd
  have h2 : n % 256 ^ (k + 1) / 256 ^ k = n / 256 ^ k % 256 := by
    rw [pow_succ]; exact Nat.mod_mul_right_div_self n (256 ^ k) 256
  calc n % 256 ^ (k + 1)
      = 256 ^ k * (n % 256 ^ (k + 1) / 256 ^ k) + n % 256 ^ (k + 1) % 256 ^ k :=
        (Nat.div_add_mod _ _).symm
    _ = 256 ^ k * (n / 256 ^ k % 256) + n % 256 ^ k := by rw [h1, h2]

theorem readBE_foldl (k n a : Nat) :
    (beBytes k n).foldl (fun a b => a * 256 + b) a = a * 256 ^ k + n % 256 ^ k := by
  induction k generalizing a with
  | zero => simp [beBytes, Nat.mod_one]
  | succ k ih =>
    simp only [beBytes, List.foldl_cons, ih]
    rw [mod_pow_succ_split k n, pow_succ]
    ring

theorem readBE_beBytes (k n : Nat) : readBE (beBytes k n) = n % 256 ^ k := by
  simpa [readBE] using readBE_foldl k n 0

/-- Model of `buffer.readInt32BE(0)`: reads the first 4 bytes as a 32-bit
big-endian two's-complement integer; Node throws a range error when the
buffer is shorter than 4 bytes. -/
def readInt32BE (bs : Buffer) : Except String Int :=
  if bs.length < 4 then .error "RangeError: index out of range"
  else
    let u := readBE (bs.take 4)
    .ok (if u < 2147483648 then (u : Int) else (u : Int) - 4294967296)

/-- Model of `buffer.readUInt16BE(offset)` with Node's bounds check. -/
def readUInt16BE (bs : Buffer) (offset : Nat) : Except String Nat :=
  if bs.length < offset + 2 then .error "RangeError: index out of range"
  else .ok (readBE ((bs.drop offset).take 2))

/-- Modelled from the spec: the external 64-bit integer capability
(`types.Long`, whose module is not part of the sources under review) renders
a value to an 8-byte big-endian two's-complement buffer. -/
def longToBytes (n : Int) : Buffer := beBytes 8 ((n % 18446744073709551616).toNat)

/-- Modelled from the spec: `types.Long.fromBuffer` reads an 8-byte big-endian
two's-complement buffer; shorter buffers make the underlying 32-bit reads
throw. -/
def longFromBytes (bs : Buffer) : Except String Int :=
  if bs.length < 8 then .error "RangeError: index out of range"
  else
    let u := readBE (bs.take 8)
    .ok (if u < 9223372036854775808 then (u : Int) else (u : Int) - 18446744073709551616)

/-- Modelled from the spec: `types.Long.fromNumber` (external 64-bit integer
capability, goog.math semantics) clamps values outside the signed 64-bit
range; integral values inside the range are kept exactly. -/
def longFromNumber (n : Int) : Int :=
  if n ≤ -9223372036854775808 then -9223372036854775808
  else if 9223372036854775808 ≤ n then 9223372036854775807
  else n

theorem long_roundtrip (n : Int) (h1 : -9223372036854775808 ≤ n)
    (h2 : n < 9223372036854775808) : longFromBytes (longToBytes n) = .ok n := by
  have hlen : (longToBytes n).length = 8 := beBytes_length _ _
  have hmod : (n % 18446744073709551616).toNat < 256 ^ 8 := by
    have := Int.emod_nonneg n (by norm_num : (18446744073709551616 : Int) ≠ 0)
    have := Int.emod_lt_of_pos n (by norm_num : (0 : Int) < 18446744073709551616)
    omega
  have hread : readBE ((longToBytes n).take 8) = (n % 18446744073709551616).toNat := by
    rw [longToBytes, List.take_of_length_le (by rw [beBytes_length])]
    rw [readBE_beBytes]
    exact Nat.mod_eq_of_lt hmod
  rw [longFromBytes]
  simp only [hlen, hread]
  norm_num
  omega

/-- Little-endian minimal two's-complement byte list of an integer: the loop
the external arbitrary-precision capability uses to render a varint
(modelled from the spec: "minimal two's-complement BE bytes"; the byte order
is reversed by `varintToBytes`). -/
def tcBytesLE (n : Int) : List Nat :=
  if h : -128 ≤ n ∧ n < 128 then [(n % 256).toNat]
  else (n % 256).toNat :: tcBytesLE (n / 256)
termination_by n.natAbs
decreasing_by omega

/-- Modelled from the spec: `types.Integer.toBuffer` renders an
arbitrary-precision integer as minimal big-endian two's-complement bytes. -/
def varintToBytes (n : Int) : Buffer := (tcBytesLE n).reverse

/-- Modelled from the spec: `types.Integer.fromBuffer` reads big-endian
two's-complement bytes of any length (sign taken from the top bit of the
first byte); an empty buffer reads as zero. -/
def varintFromBytes (bs : Buffer) : Int :=
  if 128 ≤ bs.headD 0 then (readBE bs : Int) - (256 : Int) ^ bs.length
  else (readBE bs : Int)

theorem tcBytesLE_ne_nil (n : Int) : tcBytesLE n ≠ [] := by
  rw [tcBytesLE]
  split <;> simp

theorem readBE_append_one (xs : List Nat) (b : Nat) :
    readBE (xs ++ [b]) = readBE xs * 256 + b := by
  simp [readBE, List.foldl_append]

theorem varintFromBytes_snoc (xs : List Nat) (x b : Nat) :
    varintFromBytes ((x :: xs) ++ [b]) = 256 * varintFromBytes (x :: xs) + b := by
  have hr := readBE_append_one (x :: xs) b
  simp only [List.cons_append] at hr
  simp only [varintFromBytes, List.cons_append, List.headD_cons, hr, List.length_cons,
    List.length_append, List.length_singleton]
  by_cases hx : 128 ≤ x
  · simp only [hx, if_true]
    rw [show xs.length + ([].length + 1) + 1 = (xs.length + 1) + 1 by simp, pow_succ]
    push_cast
    ring
  · simp only [hx, if_false]
    push_cast
    ring

theorem varint_roundtrip (n : Int) : varintFromBytes (varintToBytes n) = n := by
  rw [varintToBytes]
  induction n using tcBytesLE.induct with
  | case1 n h =>
    rw [tcBytesLE, dif_pos h]
    simp only [List.reverse_singleton, varintFromBytes, List.headD_cons, readBE,
      List.foldl_cons, List.foldl_nil, List.length_singleton]
    omega
  | case2 n h ih =>
    rw [tcBytesLE, dif_neg h]
    rw [List.reverse_cons]
    obtain ⟨y, ys, hy⟩ : ∃ y ys, (tcBytesLE (n / 256)).reverse = y :: ys := by
      rcases hrev : (tcBytesLE (n / 256)).reverse with _ | ⟨y, ys⟩
      · exact absurd (by simpa using congrArg List.reverse hrev) (tcBytesLE_ne_nil _)
      · exact ⟨y, ys, rfl⟩
    rw [hy] at ih ⊢
    rw [varintFromBytes_snoc, ih]
    omega

/-- Number of binary digits of `n` (fuel-structured so that it reduces in the
kernel); `bitLen 0 = 0`, otherwise `2 ^ (bitLen n - 1) ≤ n < 2 ^ bitLen n`. -/
def bitLenAux : Nat → Nat → Nat
  | 0, _ => 0
  | _ + 1, 0 => 0
  | fuel + 1, n + 1 => 1 + bitLenAux fuel ((n + 1) / 2)

def bitLen (n : Nat) : Nat := bitLenAux n n

theorem bitLenAux_spec : ∀ fuel n, n ≤ fuel → 0 < n →
    2 ^ (bitLenAux fuel n - 1) ≤ n ∧ n < 2 ^ bitLenAux fuel n := by
  intro fuel
  induction fuel with
  | zero => intro n h1 h2; omega
  | succ fuel ih =>
    intro n h1 h2
    obtain ⟨m, rfl⟩ : ∃ m, n = m + 1 := ⟨n - 1, by omega⟩
    show 2 ^ (1 + bitLenAux fuel ((m + 1) / 2) - 1) ≤ m + 1 ∧
      m + 1 < 2 ^ (1 + bitLenAux fuel ((m + 1) / 2))
    by_cases hm : m = 0
    · subst hm
      simp [bitLenAux]
      rcases fuel with _ | fuel <;> simp [bitLenAux]
    · have hpos : 0 < (m + 1) / 2 := by omega
      have hle : (m + 1) / 2 ≤ fuel := by omega
      obtain ⟨hlo, hhi⟩ := ih ((m + 1) / 2) hle hpos
      have hB : 1 ≤ bitLenAux fuel ((m + 1) / 2) := by
        by_contra hc
        have : bitLenAux fuel ((m + 1) / 2) = 0 := by omega
        rw [this] at hhi
        omega
      constructor
      · have : 2 ^ (1 + bitLenAux fuel ((m + 1) / 2) - 1) =
            2 * 2 ^ (bitLenAux fuel ((m + 1) / 2) - 1) := by
          rw [← pow_succ']
          congr 1
          omega
        rw [this]
        omega
      · have : 2 ^ (1 + bitLenAux fuel ((m + 1) / 2)) =
            2 * 2 ^ bitLenAux fuel ((m + 1) / 2) := by
          rw [← pow_succ']
          congr 1
          omega
        rw [this]
        omega

theorem bitLen_spec (n : Nat) (h : 0 < n) :
    2 ^ (bitLen n - 1) ≤ n ∧ n < 2 ^ bitLen n :=
  bitLenAux_spec n n (le_refl n) h

/-- IEEE-754 bit pattern of an integral value, parameterized by mantissa bit
count `mb`, exponent bit count `eb` and exponent bias; this is what Node's
`writeDoubleBE`/`writeFloatBE` produce on integral JS numbers whose magnitude
fits the mantissa exactly (`none` marks the rounding region the integral
model cuts off). -/
def fpBitsOfInt (mb eb bias : Nat) (n : Int) : Option Nat :=
  if n = 0 then some 0
  else if n.natAbs < 2 ^ (mb + 1) then
    some ((if n < 0 then 2 ^ (mb + eb) else 0) + (bitLen n.natAbs - 1 + bias) * 2 ^ mb +
      (n.natAbs * 2 ^ (mb - (bitLen n.natAbs - 1)) - 2 ^ mb))
  else none

/-- Inverse direction: what Node's `readDoubleBE`/`readFloatBE` yield from a
bit pattern, restricted to patterns whose value is an integer (non-integral,
subnormal, infinite and NaN patterns are flagged as outside the integral
model). -/
def fpIntOfBits (mb eb bias : Nat) (bits : Nat) : Except String Int :=
  let sgn := bits / 2 ^ (mb + eb)
  let ef := bits / 2 ^ mb % 2 ^ eb
  let mant := bits % 2 ^ mb
  if ef = 0 then
    if mant = 0 then .ok 0 else .error "float model: subnormal value is not an integer"
  else if ef = 2 ^ eb - 1 then .error "float model: infinity or NaN"
  else if bias ≤ ef ∧ ef - bias ≤ mb then
    if (2 ^ mb + mant) % 2 ^ (mb - (ef - bias)) = 0 then
      .ok ((if sgn = 1 then -1 else 1) * ((2 ^ mb + mant) / 2 ^ (mb - (ef - bias)) : Nat))
    else .error "float model: value is not an integer"
  else if bias ≤ ef then
    .ok ((if sgn = 1 then -1 else 1) * ((2 ^ mb + mant) * 2 ^ (ef - bias - mb) : Nat))
  else .error "float model: value is not an integer"

theorem fp_core (mb : Nat) (m : Nat) (hmpos : 0 < m) (hme : m < 2 ^ (mb + 1)) :
    2 ^ (bitLen m - 1) ≤ m ∧ m < 2 ^ (bitLen m - 1 + 1) ∧ bitLen m - 1 ≤ mb ∧
    2 ^ mb ≤ m * 2 ^ (mb - (bitLen m - 1)) ∧
    m * 2 ^ (mb - (bitLen m - 1)) < 2 ^ mb + 2 ^ mb := by
  obtain ⟨hlo, hhi⟩ := bitLen_spec m hmpos
  have hbl : 1 ≤ bitLen m := by
    by_contra hb
    have : bitLen m = 0 := by omega
    rw [this] at hhi
    omega
  have hhi' : m < 2 ^ (bitLen m - 1 + 1) := by
    have : bitLen m - 1 + 1 = bitLen m := by omega
    rw [this]
    exact hhi
  have hemb : bitLen m - 1 ≤ mb := by
    by_contra hc
    have h1 : mb + 1 ≤ bitLen m - 1 := by omega
    have h2 : (2 : Nat) ^ (mb + 1) ≤ 2 ^ (bitLen m - 1) := Nat.pow_le_pow_right (by norm_num) h1
    omega
  refine ⟨hlo, hhi', hemb, ?_, ?_⟩
  · calc 2 ^ mb = 2 ^ (bitLen m - 1) * 2 ^ (mb - (bitLen m - 1)) := by
          rw [← pow_add]
          congr 1
          omega
      _ ≤ m * 2 ^ (mb - (bitLen m - 1)) :=
          Nat.mul_le_mul_right _ hlo
  · calc m * 2 ^ (mb - (bitLen m - 1)) < 2 ^ (bitLen m - 1 + 1) * 2 ^ (mb - (bitLen m - 1)) :=
          mul_lt_mul_of_pos_right hhi' (by positivity)
      _ = 2 ^ (mb + 1) := by
          rw [← pow_add]
          congr 1
          omega
      _ = 2 ^ mb + 2 ^ mb := by
          rw [pow_succ]
          omega

theorem fp_roundtrip (mb eb bias : Nat) (n : Int)
    (hbias : 1 ≤ bias) (hfit : bias + mb + 2 ≤ 2 ^ eb)
    (hn : n.natAbs < 2 ^ (mb + 1)) :
    ∃ bits, fpBitsOfInt mb eb bias n = some bits ∧ bits < 2 ^ (mb + eb + 1) ∧
      fpIntOfBits mb eb bias bits = .ok n := by
  by_cases hz : n = 0
  · subst hz
    refine ⟨0, by rw [fpBitsOfInt]; simp, by positivity, ?_⟩
    rw [fpIntOfBits]
    simp
  · have hmpos : 0 < n.natAbs := Int.natAbs_pos.mpr hz
    obtain ⟨hlo, hhi, hemb, hmlo, hmhi⟩ := fp_core mb n.natAbs hmpos hn
    set e := bitLen n.natAbs - 1 with hedef
    set mant := n.natAbs * 2 ^ (mb - e) - 2 ^ mb with hmantdef
    set sgn : Nat := if n < 0 then 1 else 0 with hsgndef
    have hmantlt : mant < 2 ^ mb := by omega
    have heflt : e + bias < 2 ^ eb := by omega
    have hbits : fpBitsOfInt mb eb bias n =
        some (sgn * 2 ^ (mb + eb) + (e + bias) * 2 ^ mb + mant) := by
      rw [fpBitsOfInt, if_neg hz, if_pos hn]
      congr 2
      by_cases hneg : n < 0 <;> simp [hsgndef, hneg]
    refine ⟨_, hbits, ?_, ?_⟩
    · have h1 : (e + bias) * 2 ^ mb + mant < 2 ^ eb * 2 ^ mb := by
        calc (e + bias) * 2 ^ mb + mant < (e + bias) * 2 ^ mb + 2 ^ mb := by omega
          _ = (e + bias + 1) * 2 ^ mb := by ring
          _ ≤ 2 ^ eb * 2 ^ mb := Nat.mul_le_mul_right _ (by omega)
      have h2 : (2 : Nat) ^ eb * 2 ^ mb = 2 ^ (mb + eb) := by
        rw [← pow_add]
        congr 1
        omega
      have h3 : (2 : Nat) ^ (mb + eb + 1) = 2 ^ (mb + eb) + 2 ^ (mb + eb) := by
        rw [pow_succ]
        omega
      have hsgn1 : sgn ≤ 1 := by
        rw [hsgndef]
        split <;> omega
      calc sgn * 2 ^ (mb + eb) + (e + bias) * 2 ^ mb + mant
          ≤ 1 * 2 ^ (mb + eb) + ((e + bias) * 2 ^ mb + mant) := by
            have := Nat.mul_le_mul_right (2 ^ (mb + eb)) hsgn1
            omega
        _ < 2 ^ (mb + eb + 1) := by omega
    · -- decode the bit pattern back
      set bits := sgn * 2 ^ (mb + eb) + (e + bias) * 2 ^ mb + mant with hbitsdef
      have hrearr : bits = mant + 2 ^ mb * (e + bias + 2 ^ eb * sgn) := by
        rw [hbitsdef]
        have : (2 : Nat) ^ (mb + eb) = 2 ^ mb * 2 ^ eb := by
          rw [← pow_add]
        rw [this]
        ring
      have hmod : bits % 2 ^ mb = mant := by
        rw [hrearr, Nat.add_mul_mod_self_left]
        exact Nat.mod_eq_of_lt hmantlt
      have hdiv : bits / 2 ^ mb = e + bias + 2 ^ eb * sgn := by
        rw [hrearr, Nat.add_mul_div_left _ _ (by positivity : 0 < 2 ^ mb),
          Nat.div_eq_of_lt hmantlt]
        omega
      have hef : bits / 2 ^ mb % 2 ^ eb = e + bias := by
        rw [hdiv, Nat.add_mul_mod_self_left]
        exact Nat.mod_eq_of_lt heflt
      have hsgnx : bits / 2 ^ (mb + eb) = sgn := by
        have h1 : (2 : Nat) ^ (mb + eb) = 2 ^ mb * 2 ^ eb := by rw [← pow_add]
        rw [h1, ← Nat.div_div_eq_div_mul, hdiv, Nat.add_mul_div_left _ _
          (by positivity : 0 < 2 ^ eb), Nat.div_eq_of_lt heflt]
        omega
      rw [fpIntOfBits]
      simp only [hef, hmod, hsgnx]
      have hne0 : ¬(e + bias = 0) := by omega
      have hnemax : ¬(e + bias = 2 ^ eb - 1) := by omega
      have hcond : bias ≤ e + bias ∧ e + bias - bias ≤ mb := by omega
      rw [if_neg hne0, if_neg hnemax, if_pos hcond]
      have hpm : e + bias - bias = e := by omega
      have hfull : 2 ^ mb + mant = n.natAbs * 2 ^ (mb - e) := by omega
      rw [hpm, hfull, Nat.mul_mod_left, if_pos rfl,
        Nat.mul_div_cancel _ (by positivity : 0 < 2 ^ (mb - e))]
      by_cases hneg : n < 0
      · have : sgn = 1 := by rw [hsgndef, if_pos hneg]
        rw [this, if_pos rfl]
        simp only [neg_mul, one_mul]
        exact congrArg Except.ok (by omega)
      · have : sgn = 0 := by rw [hsgndef, if_neg hneg]
        rw [this, if_neg (by norm_num), one_mul]
        exact congrArg Except.ok (by omega)

/-- Continuation-byte test for UTF-8 (`10xxxxxx`). -/
def utf8Cont (b : Nat) : Bool := 128 ≤ b && b < 192

/-- UTF-8 bytes of one unicode scalar, as produced by `new Buffer(str, 'utf8')`
for strings of valid scalars. -/
def utf8EncodeChar (c : Char) : List Nat :=
  let n := c.toNat
  if n < 128 then [n]
  else if n < 2048 then [192 + n / 64, 128 + n % 64]
  else if n < 65536 then [224 + n / 4096, 128 + n / 64 % 64, 128 + n % 64]
  else [240 + n / 262144, 128 + n / 4096 % 64, 128 + n / 64 % 64, 128 + n % 64]

def utf8Encode (cs : List Char) : Buffer := (cs.map utf8EncodeChar).flatten

/-- The U+FFFD replacement character Node substitutes for ill-formed input. -/
def replChar : Char := Char.ofNat 65533

mutual
/-- Model of `buffer.toString('utf8')`: greedy UTF-8 decoding, ill-formed
sequences replaced (overlong forms are not re-checked here; no claim decodes
a non-canonical buffer as text). -/
def utf8DecodeBytes : List Nat → List Char
  | [] => []
  | b0 :: rest =>
    if b0 < 128 then Char.ofNat b0 :: utf8DecodeBytes rest
    else if b0 < 192 then replChar :: utf8DecodeBytes rest
    else if b0 < 224 then utf8Dec2 b0 rest
    else if b0 < 240 then utf8Dec3 b0 rest
    else if b0 < 248 then utf8Dec4 b0 rest
    else replChar :: utf8DecodeBytes rest
termination_by l => (l.length, 1)

/-- Continuation of `utf8DecodeBytes` after a 2-byte leading byte. -/
def utf8Dec2 (b0 : Nat) : List Nat → List Char
  | [] => [replChar]
  | b1 :: rest1 =>
    if utf8Cont b1 then Char.ofNat ((b0 - 192) * 64 + (b1 - 128)) :: utf8DecodeBytes rest1
    else replChar :: utf8DecodeBytes (b1 :: rest1)
termination_by l => (l.length + 1, 0)

/-- Continuation of `utf8DecodeBytes` after a 3-byte leading byte. -/
def utf8Dec3 (b0 : Nat) : List Nat → List Char
  | b1 :: b2 :: rest2 =>
    if utf8Cont b1 && utf8Cont b2 then
      Char.ofNat ((b0 - 224) * 4096 + (b1 - 128) * 64 + (b2 - 128)) :: utf8DecodeBytes rest2
    else replChar :: utf8DecodeBytes (b1 :: b2 :: rest2)
  | _ => [replChar]
termination_by l => (l.length + 1, 0)

/-- Continuation of `utf8DecodeBytes` after a 4-byte leading byte. -/
def utf8Dec4 (b0 : Nat) : List Nat → List Char
  | b1 :: b2 :: b3 :: rest3 =>
    if utf8Cont b1 && utf8Cont b2 && utf8Cont b3 then
      Char.ofNat ((b0 - 240) * 262144 + (b1 - 128) * 4096 + (b2 - 128) * 64 +
        (b3 - 128)) :: utf8DecodeBytes rest3
    else replChar :: utf8DecodeBytes (b1 :: b2 :: b3 :: rest3)
  | _ => [replChar]
termination_by l => (l.length + 1, 0)
end

def utf8Decode (bs : Buffer) : String := String.mk (utf8DecodeBytes bs)

theorem char_toNat_lt (c : Char) : c.toNat < 1114112 := by
  have h := c.valid
  rcases h with h | h
  · have : c.val.toNat < 55296 := h
    simp only [Char.toNat]
    omega
  · obtain ⟨_, h2⟩ := h
    have : c.val.toNat < 1114112 := h2
    simp only [Char.toNat]
    omega

theorem utf8DecodeBytes_encodeChar (c : Char) (bs : List Nat) :
    utf8DecodeBytes (utf8EncodeChar c ++ bs) = c :: utf8DecodeBytes bs := by
  have hlt := char_toNat_lt c
  have hofNat := Char.ofNat_toNat c
  rcases Nat.lt_or_ge c.toNat 128 with h1 | h1
  · have he : utf8EncodeChar c = [c.toNat] := by
      simp only [utf8EncodeChar]
      rw [if_pos h1]
    rw [he]
    simp only [List.cons_append, List.nil_append, utf8DecodeBytes]
    rw [if_pos h1, hofNat]
  · rcases Nat.lt_or_ge c.toNat 2048 with h2 | h2
    · have he : utf8EncodeChar c = [192 + c.toNat / 64, 128 + c.toNat % 64] := by
        simp only [utf8EncodeChar]
        rw [if_neg (by omega), if_pos h2]
      rw [he]
      simp only [List.cons_append, List.nil_append, utf8DecodeBytes]
      rw [if_neg (show ¬(192 + c.toNat / 64 < 128) by omega),
        if_neg (show ¬(192 + c.toNat / 64 < 192) by omega),
        if_pos (show 192 + c.toNat / 64 < 224 by omega)]
      simp only [utf8Dec2]
      rw [if_pos (show utf8Cont (128 + c.toNat % 64) = true by
        simp only [utf8Cont, Bool.and_eq_true, decide_eq_true_eq]; omega)]
      rw [show (192 + c.toNat / 64 - 192) * 64 + (128 + c.toNat % 64 - 128) = c.toNat by omega,
        hofNat]
    · rcases Nat.lt_or_ge c.toNat 65536 with h3 | h3
      · have he : utf8EncodeChar c =
            [224 + c.toNat / 4096, 128 + c.toNat / 64 % 64, 128 + c.toNat % 64] := by
          simp only [utf8EncodeChar]
          rw [if_neg (by omega), if_neg (by omega), if_pos h3]
        rw [he]
        simp only [List.cons_append, List.nil_append, utf8DecodeBytes]
        rw [if_neg (show ¬(224 + c.toNat / 4096 < 128) by omega),
          if_neg (show ¬(224 + c.toNat / 4096 < 192) by omega),
          if_neg (show ¬(224 + c.toNat / 4096 < 224) by omega),
          if_pos (show 224 + c.toNat / 4096 < 240 by omega)]
        simp only [utf8Dec3]
        rw [if_pos (show (utf8Cont (128 + c.toNat / 64 % 64) &&
            utf8Cont (128 + c.toNat % 64)) = true by
          simp only [utf8Cont, Bool.and_eq_true, decide_eq_true_eq]; omega)]
        rw [show (224 + c.toNat / 4096 - 224) * 4096 + (128 + c.toNat / 64 % 64 - 128) * 64 +
            (128 + c.toNat % 64 - 128) = c.toNat by omega, hofNat]
      · have he : utf8EncodeChar c = [240 + c.toNat / 262144, 128 + c.toNat / 4096 % 64,
            128 + c.toNat / 64 % 64, 128 + c.toNat % 64] := by
          simp only [utf8EncodeChar]
          rw [if_neg (by omega), if_neg (by omega), if_neg (by omega)]
        rw [he]
        simp only [List.cons_append, List.nil_append, utf8DecodeBytes]
        rw [if_neg (show ¬(240 + c.toNat / 262144 < 128) by omega),
          if_neg (show ¬(240 + c.toNat / 262144 < 192) by omega),
          if_neg (show ¬(240 + c.toNat / 262144 < 224) by omega),
          if_neg (show ¬(240 + c.toNat / 262144 < 240) by omega),
          if_pos (show 240 + c.toNat / 262144 < 248 by omega)]
        simp only [utf8Dec4]
        rw [if_pos (show (utf8Cont (128 + c.toNat / 4096 % 64) &&
            utf8Cont (128 + c.toNat / 64 % 64) && utf8Cont (128 + c.toNat % 64)) = true by
          simp only [utf8Cont, Bool.and_eq_true, decide_eq_true_eq]; omega)]
        rw [show (240 + c.toNat / 262144 - 240) * 262144 +
            (128 + c.toNat / 4096 % 64 - 128) * 4096 +
            (128 + c.toNat / 64 % 64 - 128) * 64 + (128 + c.toNat % 64 - 128) = c.toNat by
          omega, hofNat]

theorem utf8_roundtrip_chars (cs : List Char) :
    utf8DecodeBytes (utf8Encode cs) = cs := by
  induction cs with
  | nil => simp [utf8Encode, utf8DecodeBytes]
  | cons c rest ih =>
    rw [show utf8Encode (c :: rest) = utf8EncodeChar c ++ utf8Encode rest by
      simp [utf8Encode]]
    rw [utf8DecodeBytes_encodeChar, ih]

theorem utf8_roundtrip (s : String) : utf8Decode (utf8Encode s.data) = s := by
  rw [utf8Decode, utf8_roundtrip_chars]

/-- Model of `new Buffer(str, 'ascii')` (Node masks each UTF-16 unit with
`0xFF`; strings outside the basic plane are not distinguished by any claim). -/
def asciiEncode (cs : List Char) : Buffer := cs.map (fun c => c.toNat % 256)

/-- Model of `buffer.toString('ascii')` (Node clears the top bit of each
byte). -/
def asciiDecode (bs : Buffer) : List Char := bs.map (fun b => Char.ofNat (b % 128))

theorem ascii_roundtrip (cs : List Char) (h : ∀ c ∈ cs, c.toNat < 128) :
    asciiDecode (asciiEncode cs) = cs := by
  rw [asciiDecode, asciiEncode, List.map_map]
  conv_rhs => rw [← List.map_id cs]
  apply List.map_congr_left
  intro c hc
  have hlt := h c hc
  simp only [Function.comp_apply, id]
  have : c.toNat % 256 % 128 = c.toNat := by omega
  rw [this, Char.ofNat_toNat]

/-- Lower-case hex digit for a nibble. -/
def hexDigitChar (k : Nat) : Char := Char.ofNat (if k < 10 then 48 + k else 87 + k)

/-- Two lower-case hex digits of a byte. -/
def byteHex (b : Nat) : List Char := [hexDigitChar (b / 16 % 16), hexDigitChar (b % 16)]

/-- The character class of node-uuid's parse regex, `[0-9a-f]` (applied after
`toLowerCase`). -/
def isHexLower (c : Char) : Bool := ('0' ≤ c && c ≤ '9') || ('a' ≤ c && c ≤ 'f')

def hexVal (c : Char) : Nat := if c ≤ '9' then c.toNat - 48 else c.toNat - 87

def hexPairsToBytes : List Char → List Nat
  | c1 :: c2 :: rest => (hexVal c1 * 16 + hexVal c2) :: hexPairsToBytes rest
  | _ => []

/-- Model of node-uuid's `parse(value, new Buffer(16))`: lower-case the input,
collect hex-digit pairs (up to 16), zero-fill the remainder.  (The original
scans consecutive pairs with a regex; on canonical uuid strings — even-length
hex groups — collecting the hex characters first is the same.) -/
def uuidParse (s : String) : Buffer :=
  let hx := (s.data.map Char.toLower).filter isHexLower
  let bytes := (hexPairsToBytes hx).take 16
  bytes ++ List.replicate (16 - bytes.length) 0

/-- Model of node-uuid's `unparse`: lower-case canonical 8-4-4-4-12 rendering
of a 16-byte buffer (other lengths render garbage in the original; the model
returns an empty string there, a case no claim relies on). -/
def uuidUnparse (bs : Buffer) : String :=
  match bs with
  | [b0, b1, b2, b3, b4, b5, b6, b7, b8, b9, b10, b11, b12, b13, b14, b15] =>
    String.mk (byteHex b0 ++ byteHex b1 ++ byteHex b2 ++ byteHex b3 ++ ['-'] ++
      byteHex b4 ++ byteHex b5 ++ ['-'] ++ byteHex b6 ++ byteHex b7 ++ ['-'] ++
      byteHex b8 ++ byteHex b9 ++ ['-'] ++ byteHex b10 ++ byteHex b11 ++ byteHex b12 ++
      byteHex b13 ++ byteHex b14 ++ byteHex b15)
  | _ => ""

set_option maxRecDepth 40000 in
theorem byteHex_clean : ∀ b < 256,
    ((byteHex b).map Char.toLower).filter isHexLower = byteHex b := by decide

set_option maxRecDepth 40000 in
theorem byteHex_val : ∀ b < 256,
    hexVal (hexDigitChar (b / 16 % 16)) * 16 + hexVal (hexDigitChar (b % 16)) = b := by decide

theorem hexPairs_chunk (b : Nat) (hb : b < 256) (rest : List Char) :
    hexPairsToBytes (byteHex b ++ rest) = b :: hexPairsToBytes rest := by
  simp only [byteHex, List.cons_append, List.nil_append, hexPairsToBytes]
  rw [byteHex_val b hb]
  rfl

theorem hyphen_clean :
    ((['-'] : List Char).map Char.toLower).filter isHexLower = [] := by decide

theorem hexPairs_single (b : Nat) (hb : b < 256) : hexPairsToBytes (byteHex b) = [b] := by
  have := hexPairs_chunk b hb []
  simpa using this

theorem uuid_roundtrip : ∀ bs : Buffer, bs.length = 16 → (∀ x ∈ bs, x < 256) →
    uuidParse (uuidUnparse bs) = bs := by
  intro bs hlen hb
  rcases bs with _ | ⟨b0, bs⟩
  · exact absurd hlen (by simp)
  rcases bs with _ | ⟨b1, bs⟩
  · exact absurd hlen (by simp)
  rcases bs with _ | ⟨b2, bs⟩
  · exact absurd hlen (by simp)
  rcases bs with _ | ⟨b3, bs⟩
  · exact absurd hlen (by simp)
  rcases bs with _ | ⟨b4, bs⟩
  · exact absurd hlen (by simp)
  rcases bs with _ | ⟨b5, bs⟩
  · exact absurd hlen (by simp)
  rcases bs with _ | ⟨b6, bs⟩
  · exact absurd hlen (by simp)
  rcases bs with _ | ⟨b7, bs⟩
  · exact absurd hlen (by simp)
  rcases bs with _ | ⟨b8, bs⟩
  · exact absurd hlen (by simp)
  rcases bs with _ | ⟨b9, bs⟩
  · exact absurd hlen (by simp)
  rcases bs with _ | ⟨b10, bs⟩
  · exact absurd hlen (by simp)
  rcases bs with _ | ⟨b11, bs⟩
  · exact absurd hlen (by simp)
  rcases bs with _ | ⟨b12, bs⟩
  · exact absurd hlen (by simp)
  rcases bs with _ | ⟨b13, bs⟩
  · exact absurd hlen (by simp)
  rcases bs with _ | ⟨b14, bs⟩
  · exact absurd hlen (by simp)
  rcases bs with _ | ⟨b15, bs⟩
  · exact absurd hlen (by simp)
  rcases bs with _ | ⟨bx, bs⟩
  swap
  · exact absurd hlen (by simp)
  have h0 : b0 < 256 := hb b0 (by simp)
  have h1 : b1 < 256 := hb b1 (by simp)
  have h2 : b2 < 256 := hb b2 (by simp)
  have h3 : b3 < 256 := hb b3 (by simp)
  have h4 : b4 < 256 := hb b4 (by simp)
  have h5 : b5 < 256 := hb b5 (by simp)
  have h6 : b6 < 256 := hb b6 (by simp)
  have h7 : b7 < 256 := hb b7 (by simp)
  have h8 : b8 < 256 := hb b8 (by simp)
  have h9 : b9 < 256 := hb b9 (by simp)
  have h10 : b10 < 256 := hb b10 (by simp)
  have h11 : b11 < 256 := hb b11 (by simp)
  have h12 : b12 < 256 := hb b12 (by simp)
  have h13 : b13 < 256 := hb b13 (by simp)
  have h14 : b14 < 256 := hb b14 (by simp)
  have h15 : b15 < 256 := hb b15 (by simp)
  show uuidParse (uuidUnparse [b0, b1, b2, b3, b4, b5, b6, b7, b8, b9, b10, b11, b12,
    b13, b14, b15]) = _
  rw [uuidUnparse, uuidParse]
  dsimp only
  simp only [List.map_append, List.filter_append]
  rw [byteHex_clean b0 h0, byteHex_clean b1 h1, byteHex_clean b2 h2, byteHex_clean b3 h3, byteHex_clean b4 h4, byteHex_clean b5 h5, byteHex_clean b6 h6, byteHex_clean b7 h7, byteHex_clean b8 h8, byteHex_clean b9 h9, byteHex_clean b10 h10, byteHex_clean b11 h11, byteHex_clean b12 h12, byteHex_clean b13 h13, byteHex_clean b14 h14, byteHex_clean b15 h15]
  simp only [hyphen_clean, List.append_nil, List.nil_append, List.append_assoc]
  rw [hexPairs_chunk b0 h0 _, hexPairs_chunk b1 h1 _, hexPairs_chunk b2 h2 _, hexPairs_chunk b3 h3 _, hexPairs_chunk b4 h4 _, hexPairs_chunk b5 h5 _, hexPairs_chunk b6 h6 _, hexPairs_chunk b7 h7 _, hexPairs_chunk b8 h8 _, hexPairs_chunk b9 h9 _, hexPairs_chunk b10 h10 _, hexPairs_chunk b11 h11 _, hexPairs_chunk b12 h12 _, hexPairs_chunk b13 h13 _, hexPairs_chunk b14 h14 _, hexPairs_single b15 h15]
  simp [hexPairsToBytes]

/-- JS whitespace trimmed by `Number(string)` coercion. -/
def isJsSpace (c : Char) : Bool := c == ' ' || c == '\t' || c == '\n' || c == '\r'

def isDigitChar (c : Char) : Bool := '0' ≤ c && c ≤ '9'

def isHexDigitChar (c : Char) : Bool :=
  isDigitChar c || ('a' ≤ c && c ≤ 'f') || ('A' ≤ c && c ≤ 'F')

def natOfDigits (ds : List Char) : Nat := ds.foldl (fun a c => a * 10 + (c.toNat - 48)) 0

def natOfHexDigits (ds : List Char) : Nat :=
  ds.foldl (fun a c => a * 16 + hexVal (Char.toLower c)) 0

/-- Decimal body of JS `Number(string)`: optional sign, digits with optional
fraction and exponent. -/
def parseDecimal (cs : List Char) : Option Rat :=
  let sb : Int × List Char :=
    match cs with
    | '-' :: r => (-1, r)
    | '+' :: r => (1, r)
    | _ => (1, cs)
  let sgn := sb.1
  let body := sb.2
  let ip := body.takeWhile isDigitChar
  let rest1 := body.drop ip.length
  let fr : List Char × List Char :=
    match rest1 with
    | '.' :: r => (r.takeWhile isDigitChar, r.drop (r.takeWhile isDigitChar).length)
    | _ => ([], rest1)
  let fp := fr.1
  let rest2 := fr.2
  if ip.length + fp.length = 0 then none
  else
    let mant : Rat := ((natOfDigits (ip ++ fp) : Int) : Rat) / ((10 : Rat) ^ fp.length)
    match rest2 with
    | [] => some (sgn * mant)
    | e :: r =>
      if e == 'e' || e == 'E' then
        let eb : Int × List Char :=
          match r with
          | '-' :: r2 => (-1, r2)
          | '+' :: r2 => (1, r2)
          | _ => (1, r)
        if eb.2 ≠ [] ∧ eb.2.all isDigitChar then
          some (sgn * mant * (10 : Rat) ^ (eb.1 * (natOfDigits eb.2 : Int)))
        else none
      else none

/-- Model of JS `Number(string)` coercion, `none` meaning NaN.  Decimal
(optionally fractional / exponential) and `0x` hex forms are modelled;
`Infinity` and the rare `0o`/`0b` forms are not (in JS they coerce to
non-NaN values that the int path then rejects as out of bounds, so only the
error message differs). -/
def jsStringToNumber (s : String) : Option Rat :=
  let cs := ((s.data.dropWhile isJsSpace).reverse.dropWhile isJsSpace).reverse
  match cs with
  | [] => some 0
  | '0' :: x :: rest =>
    if x == 'x' || x == 'X' then
      if rest ≠ [] ∧ rest.all isHexDigitChar then some ((natOfHexDigits rest : Int) : Rat)
      else none
    else parseDecimal cs
  | _ => parseDecimal cs

/-- Host-language (JavaScript) values, as far as the encoder distinguishes
them.  Numbers carry integral values only (`Int`) — the fractional cases a
JS double adds are cut off with explicit `"float model"` errors where they
would matter; `date none` is an Invalid Date; `long`/`integer` are instances
of the external 64-bit / arbitrary-precision integer capabilities. -/
inductive JsValue where
  | null
  | undef
  | num (n : Int)
  | str (s : String)
  | bool (b : Bool)
  | buf (b : List Nat)
  | date (ms : Option Int)
  | long (n : Int)
  | integer (n : Int)
  | arr (elems : List JsValue)
  | obj (fields : List (String × JsValue))

/-- Modelled from the spec: the canonical type codes of the catalog
(`types.dataTypes`; its module is not among the sources under review, so the
codes are abstract constructors rather than protocol numbers). -/
inductive DataType where
  | custom
  | ascii
  | bigint
  | blob
  | boolean
  | counter
  | decimal
  | double
  | float
  | int
  | text
  | timestamp
  | uuid
  | varchar
  | varint
  | timeuuid
  | inet
  | list
  | map
  | set
deriving DecidableEq, Repr

/-- A type hint as accepted by `encode`: a numeric code, a symbolic name
string, or a `{type, subtypes}` descriptor whose subtype slots may hold
further hints or be `undefined`. -/
inductive TypeHint where
  | code (c : DataType)
  | name (s : String)
  | info (c : DataType) (subtypes : Option (List (Option TypeHint)))

/-- Modelled from the spec: case-insensitive name → code lookup of the type
catalog. -/
def dataTypeOfName (s : String) : Option DataType :=
  match String.mk (s.data.map Char.toLower) with
  | "custom" => some .custom
  | "ascii" => some .ascii
  | "bigint" => some .bigint
  | "blob" => some .blob
  | "boolean" => some .boolean
  | "counter" => some .counter
  | "decimal" => some .decimal
  | "double" => some .double
  | "float" => some .float
  | "int" => some .int
  | "text" => some .text
  | "timestamp" => some .timestamp
  | "uuid" => some .uuid
  | "varchar" => some .varchar
  | "varint" => some .varint
  | "timeuuid" => some .timeuuid
  | "inet" => some .inet
  | "list" => some .list
  | "map" => some .map
  | "set" => some .set
  | _ => none

/-- Split a generic-argument character list on top-level commas, tracking
`<`/`>` nesting depth. -/
def splitTopLevel (cs : List Char) : List (List Char) :=
  let step := cs.foldl (fun (acc : List (List Char) × List Char × Nat) c =>
    if c == ',' && acc.2.2 == 0 then (acc.1 ++ [acc.2.1], [], acc.2.2)
    else if c == '<' then (acc.1, acc.2.1 ++ [c], acc.2.2 + 1)
    else if c == '>' then (acc.1, acc.2.1 ++ [c], acc.2.2 - 1)
    else (acc.1, acc.2.1 ++ [c], acc.2.2)) ([], [], 0)
  step.1 ++ [step.2.1]

/-- Modelled from the spec: `dataTypes.getByName` — case-insensitive lookup
supporting the recursive generic grammar `name<sub, ...>`; unknown names and
malformed generic syntax fail with a descriptive error.  Fuel (an upper bound
on nesting depth) keeps the recursion structural. -/
def parseTypeName : Nat → List Char →
    Except String (DataType × Option (List (Option TypeHint)))
  | 0, _ => .error "TypeError: type name too deeply nested"
  | fuel + 1, cs0 =>
    let cs := ((cs0.dropWhile (· == ' ')).reverse.dropWhile (· == ' ')).reverse
    let base := cs.takeWhile (· ≠ '<')
    let rest := cs.drop base.length
    match rest with
    | [] =>
      match dataTypeOfName (String.mk base) with
      | some c => .ok (c, none)
      | none => .error "TypeError: type name not found"
    | '<' :: inner =>
      if inner.getLast? = some '>' then
        match dataTypeOfName (String.mk base) with
        | some c =>
          match (splitTopLevel inner.dropLast).mapM (fun p =>
            (parseTypeName fuel p).map (fun r => some (TypeHint.info r.1 r.2))) with
          | .ok subs => .ok (c, some subs)
          | .error e => .error e
        | none => .error "TypeError: type name not found"
      else .error "TypeError: malformed generic type name"
    | _ :: _ => .error "TypeError: malformed generic type name"

def getByName (s : String) : Except String (DataType × Option (List (Option TypeHint))) :=
  parseTypeName (s.length + 1) s.data

/-- The uuid test of `guessDataType`:
regex `[0-9a-f]{8}-[0-9a-f]{4}-[0-9a-f]{4}-[0-9a-f]{4}-[0-9a-f]{12}` anchored
on both sides, case-insensitive. -/
def isUuidString (s : String) : Bool :=
  match s.data with
  | a0 :: a1 :: a2 :: a3 :: a4 :: a5 :: a6 :: a7 :: h1 :: b0 :: b1 :: b2 :: b3 :: h2 ::
      c0 :: c1 :: c2 :: c3 :: h3 :: d0 :: d1 :: d2 :: d3 :: h4 :: e0 :: e1 :: e2 :: e3 ::
      e4 :: e5 :: e6 :: e7 :: e8 :: e9 :: e10 :: e11 :: [] =>
    h1 == '-' && h2 == '-' && h3 == '-' && h4 == '-' &&
    [a0, a1, a2, a3, a4, a5, a6, a7, b0, b1, b2, b3, c0, c1, c2, c3, d0, d1, d2, d3,
     e0, e1, e2, e3, e4, e5, e6, e7, e8, e9, e10, e11].all isHexDigitChar
  | _ => false

/-- Model of `guessDataType` (`encoder.js` 190-224): ordered first-match
dispatch on the runtime shape of the value. -/
def guessDataType : JsValue → Option DataType
  | .num _ => some .double
  | .date _ => some .timestamp
  | .long _ => some .bigint
  | .integer _ => some .varint
  | .str s => some (if isUuidString s then .uuid else .text)
  | .buf _ => some .blob
  | .arr _ => some .list
  | .bool _ => some .boolean
  | _ => none

/-- JS `ToNumber` coercion for non-array values (`none` = NaN).  Object cases
follow `toString` then the numeric grammar: `Long`/`Integer` print their
decimal value; plain objects print `[object Object]` (NaN); a Buffer's
content-dependent string form is treated as non-numeric (no claim feeds a
Buffer to the int path). -/
def toNumberLeaf : JsValue → Option Rat
  | .null => some 0
  | .undef => none
  | .num n => some (n : Rat)
  | .bool b => some (if b then 1 else 0)
  | .str s => jsStringToNumber s
  | .date (some ms) => some (ms : Rat)
  | .date none => none
  | .long n => some (n : Rat)
  | .integer n => some (n : Rat)
  | .buf _ => none
  | .arr [] => some 0
  | .arr _ => none
  | .obj _ => none

/-- JS `ToNumber` coercion as exercised by `isNaN(value)` / `+value` in
`encodeInt` (`none` = NaN).  An array stringifies by joining its elements:
the empty array coerces to 0, a one-element array like its element (one
nesting level is modelled), longer arrays are NaN. -/
def toNumberQ : JsValue → Option Rat
  | .arr [v] =>
    match v with
    | .null => some 0
    | .undef => some 0
    | w => toNumberLeaf w
  | v => toNumberLeaf v

/-- JS truthiness for the values `encodeBoolean` can receive (null and
undefined are filtered earlier by `encode`; objects — including an Invalid
Date — are truthy). -/
def jsTruthy : JsValue → Bool
  | .null => false
  | .undef => false
  | .num n => n != 0
  | .str s => s != ""
  | .bool b => b
  | _ => true

/-- Null/undefined test performed first by `encode` (line 125). -/
def isNullish : JsValue → Bool
  | .null => true
  | .undef => true
  | _ => false

/-- Model of `getLengthBuffer` (`encoder.js` 417-429) applied to an
encoded-item result (`Buffer` or `null`).  `!value` catches `null`; an empty
buffer falls through the falsy `value.length` to `writeUInt16BE(value)`,
whose `+buffer` coercion is NaN and writes 0; an over-long buffer hits Node's
`writeUInt16BE` bounds check. -/
def getLengthBufferOfItem (v : Option Buffer) : Except String Buffer :=
  match v with
  | none => .ok [0, 0]
  | some b =>
    if b.length = 0 then .ok [0, 0]
    else if b.length ≤ 65535 then .ok (beBytes 2 b.length)
    else .error "TypeError: value is out of bounds"

/-- Model of `getLengthBuffer` applied to a count (a `Number`). -/
def getLengthBufferOfCount (n : Nat) : Except String Buffer :=
  if n ≤ 65535 then .ok (beBytes 2 n)
  else .error "TypeError: value is out of bounds"

/-- Model of `Buffer.concat`: reading each part's `length` throws a TypeError
when a part is `null`. -/
def bufferConcat (parts : List (Option Buffer)) : Except String Buffer :=
  match parts.mapM (fun p => match p with
    | some b => Except.ok b
    | none => Except.error "TypeError: cannot read length of null") with
  | .error e => .error e
  | .ok bufs => .ok bufs.flatten

/-- Model of `encodeInt` (`encoder.js` 229-236): `isNaN(value)` guard, then
Node `writeInt32BE` (v0.12): `+value` coercion, bounds check against the
signed 32-bit range, and `>>>`-truncating byte writes of the pre-adjusted
`0xffffffff + value + 1` for negatives — two's complement. -/
def encodeInt (value : JsValue) : Except String Buffer :=
  match toNumberQ value with
  | none => .error "TypeError: expected Number"
  | some q =>
    if q > 2147483647 ∨ q < -2147483648 then .error "TypeError: value is out of bounds"
    else
      .ok (beBytes 4 (if q < 0 then (4294967295 + q + 1).floor.toNat else q.floor.toNat))

/-- Model of `encodeFloat` (238-245): `typeof value !== 'number'` guard, then
`writeFloatBE`; the bit pattern comes from `fpBitsOfInt` for the integral
values whose magnitude the 24-bit mantissa holds exactly (other values would
round — outside the integral model). -/
def encodeFloat (value : JsValue) : Except String Buffer :=
  match value with
  | .num n =>
    match fpBitsOfInt 23 8 127 n with
    | some bits => .ok (beBytes 4 bits)
    | none => .error "float model: magnitude needs rounding"
  | _ => .error "TypeError: expected Number"

/-- Model of `encodeDouble` (247-254), analogous to `encodeFloat` with the
53-bit mantissa. -/
def encodeDouble (value : JsValue) : Except String Buffer :=
  match value with
  | .num n =>
    match fpBitsOfInt 52 11 1023 n with
    | some bits => .ok (beBytes 8 bits)
    | none => .error "float model: magnitude needs rounding"
  | _ => .error "TypeError: expected Number"

/-- Model of `encodeString` (335-340): `new Buffer(value, encoding)` for a
string (default encoding utf8), TypeError otherwise. -/
def encodeString (value : JsValue) : Except String Buffer :=
  match value with
  | .str s => .ok (utf8Encode s.data)
  | _ => .error "TypeError: not a valid text value"

/-- The ascii-encoding variant of `encodeString`. -/
def encodeStringAscii (value : JsValue) : Except String Buffer :=
  match value with
  | .str s => .ok (asciiEncode s.data)
  | _ => .error "TypeError: not a valid text value"

/-- Model of `encodeUuid` (278-286): a string goes through `uuid.parse` into
a 16-byte buffer; a buffer passes through; anything else is a TypeError. -/
def encodeUuid (value : JsValue) : Except String Buffer :=
  match value with
  | .str s => .ok (uuidParse s)
  | .buf b => .ok b
  | _ => .error "TypeError: only Buffer and string objects allowed for UUID values"

/-- Model of `encodeBlob` (342-347): buffers pass through. -/
def encodeBlob (value : JsValue) : Except String Buffer :=
  match value with
  | .buf b => .ok b
  | _ => .error "TypeError: not a valid blob"

/-- Model of `encodeBoolean` (349-351): one byte from truthiness. -/
def encodeBoolean (value : JsValue) : Buffer := [if jsTruthy value then 1 else 0]

/-- Modelled from the spec: `Long.fromString` / `Integer.fromString` parse a
decimal string; unconvertible input is a failure ("unconvertible
big-integer/varint source"). -/
def integerFromString (s : String) : Option Int :=
  match s.data with
  | '-' :: rest =>
    if rest ≠ [] ∧ rest.all isDigitChar then some (-(natOfDigits rest : Int)) else none
  | ds => if ds ≠ [] ∧ ds.all isDigitChar then some ((natOfDigits ds : Int)) else none

/-- Model of `encodeBigNumber` (291-309): Number → `Long.fromNumber`,
String → `Long.fromString`, Buffer passes through, Long renders with
`Long.toBuffer`, anything else is a TypeError. -/
def encodeBigNumber (value : JsValue) : Except String Buffer :=
  match value with
  | .num n => .ok (longToBytes (longFromNumber n))
  | .str s =>
    match integerFromString s with
    | some n => .ok (longToBytes n)
    | none => .error "TypeError: not a valid bigint"
  | .buf b => .ok b
  | .long n => .ok (longToBytes n)
  | _ => .error "TypeError: not a valid bigint"

/-- Platform `new Date(string)` parsing is not modelled: every date string is
treated here as an Invalid Date (real Node parses many formats; no claim
encodes a date string). -/
def jsDateParse (_ : String) : Option Int := none

/-- Model of `encodeTimestamp` (260-273): a string becomes a Date; a Date
becomes its millisecond time (Invalid Date is a TypeError); the result goes
through `encodeBigNumber`. -/
def encodeTimestamp (value : JsValue) : Except String Buffer :=
  match (match value with
         | .str s => JsValue.date (jsDateParse s)
         | other => other) with
  | .date (some ms) => encodeBigNumber (.num ms)
  | .date none => .error "TypeError: invalid date"
  | other => encodeBigNumber other

/-- Model of `encodeVarint` (315-333): Number → `Integer.fromNumber`
(exact for integral values), String → `Integer.fromString`, Buffer passes
through, Integer renders with `Integer.toBuffer`. -/
def encodeVarint (value : JsValue) : Except String Buffer :=
  match value with
  | .num n => .ok (varintToBytes n)
  | .str s =>
    match integerFromString s with
    | some n => .ok (varintToBytes n)
    | none => .error "TypeError: not a valid varint"
  | .buf b => .ok b
  | .integer n => .ok (varintToBytes n)
  | _ => .error "TypeError: not a valid varint"

/-- Resolved `{type, subtypes}` pair after `encode`'s hint normalization. -/
abbrev TypeInfo := DataType × Option (List (Option TypeHint))

/-- Model of `encode`'s hint normalization (128-138): numeric code, name
string via `getByName`, or a descriptor object.  (The JS falsiness edge —
the numeric hint `0` or an empty name string fall back to guessing — is not
representable over the spec-modelled abstract codes and is exercised by no
claim.) -/
def resolveHint : TypeHint → Except String TypeInfo
  | .code c => .ok (c, none)
  | .name s => getByName s
  | .info c subs => .ok (c, subs)

/-- Subtype slot extraction of `encodeList` (362): `typeInfo.subtypes ?
subtypes[0] : null` (an out-of-range read is `undefined`, which also makes
`encode` guess). -/
def subtypeAt (subs : Option (List (Option TypeHint))) (i : Nat) : Option TypeHint :=
  match subs with
  | some l => l.getD i none
  | none => none

mutual
/-- Model of `encode` (`encoder.js` 124-183): the null/undefined check, then
hint resolution and dispatch. -/
def encodeVal (value : JsValue) (hint : Option TypeHint) : Except String (Option Buffer) :=
  if isNullish value then .ok none
  else encodeDispatch value hint
termination_by (sizeOf value, 2)

/-- Hint normalization and type dispatch of `encode` (128-183). -/
def encodeDispatch (value : JsValue) (hint : Option TypeHint) :
    Except String (Option Buffer) :=
  match (match hint with
           | some h => resolveHint h
           | none =>
             match guessDataType value with
             | some c => Except.ok ((c, none) : TypeInfo)
             | none =>
               Except.error "TypeError: target data type could not be guessed") with
    | .error e => .error e
    | .ok ti =>
      match ti.1 with
      | .int => (encodeInt value).map some
      | .float => (encodeFloat value).map some
      | .double => (encodeDouble value).map some
      | .boolean => .ok (some (encodeBoolean value))
      | .text => (encodeString value).map some
      | .varchar => (encodeString value).map some
      | .ascii => (encodeStringAscii value).map some
      | .uuid => (encodeUuid value).map some
      | .timeuuid => (encodeUuid value).map some
      | .custom => (encodeBlob value).map some
      | .decimal => (encodeBlob value).map some
      | .inet => (encodeBlob value).map some
      | .blob => (encodeBlob value).map some
      | .bigint => (encodeBigNumber value).map some
      | .counter => (encodeBigNumber value).map some
      | .timestamp => (encodeTimestamp value).map some
      | .varint => (encodeVarint value).map some
      | .list => encodeList value ti.2
      | .set => encodeList value ti.2
      | .map => encodeMapVal value ti.2
termination_by (sizeOf value, 1)

/-- Model of `encodeList` (353-371): Array check; empty array → `null`;
otherwise count prefix, then per element its length prefix and the element
bytes — the encoded element is pushed as-is, `null` included. -/
def encodeList (value : JsValue) (subs : Option (List (Option TypeHint))) :
    Except String (Option Buffer) :=
  match value with
  | .arr l =>
    if l.length = 0 then .ok none
    else
      match getLengthBufferOfCount l.length with
      | .error e => .error e
      | .ok cnt =>
        match encodeListParts l (subtypeAt subs 0) with
        | .error e => .error e
        | .ok parts =>
          match bufferConcat (some cnt :: parts) with
          | .error e => .error e
          | .ok b => .ok (some b)
  | _ => .error "TypeError: not a valid list value, expected Array"
termination_by (sizeOf value, 0)

/-- Per-element loop of `encodeList` (363-369). -/
def encodeListParts (l : List JsValue) (sub : Option TypeHint) :
    Except String (List (Option Buffer)) :=
  match l with
  | [] => .ok []
  | e :: rest =>
    match encodeVal e sub with
    | .error err => .error err
    | .ok bytes =>
      match getLengthBufferOfItem bytes with
      | .error err => .error err
      | .ok lenB =>
        match encodeListParts rest sub with
        | .error err => .error err
        | .ok tail => .ok (some lenB :: bytes :: tail)
termination_by (sizeOf l, 0)

/-- Model of `encodeMap` (379-410) — the `for..in` enumeration is modelled
for plain objects (their own enumerable fields, in order) and for the
primitive values that enumerate nothing; `for..in` over strings, arrays,
buffers and the integer wrappers (which would enumerate indices or internal
fields, and can even make the JS recursion diverge) is outside the model. -/
def encodeMapVal (value : JsValue) (subs : Option (List (Option TypeHint))) :
    Except String (Option Buffer) :=
  match value with
  | .obj fields =>
    match encodeMapParts fields (subtypeAt subs 0) (subtypeAt subs 1) with
    | .error e => .error e
    | .ok parts =>
      match getLengthBufferOfCount fields.length with
      | .error e => .error e
      | .ok cnt =>
        match bufferConcat (some cnt :: parts) with
        | .error e => .error e
        | .ok b => .ok (some b)
  | .num _ => .ok (some [0, 0])
  | .bool _ => .ok (some [0, 0])
  | .date _ => .ok (some [0, 0])
  | _ => .error "model: for-in enumeration of this value shape is not modelled"
termination_by (sizeOf value, 0)

/-- Per-entry loop of `encodeMap` (388-405): key length + key bytes
(pushed unconditionally), value length, then the value bytes only when they
are not `null`. -/
def encodeMapParts (fields : List (String × JsValue)) (kSub vSub : Option TypeHint) :
    Except String (List (Option Buffer)) :=
  match fields with
  | [] => .ok []
  | (k, v) :: rest =>
    match encodeVal (.str k) kSub with
    | .error e => .error e
    | .ok keyB =>
      match getLengthBufferOfItem keyB with
      | .error e => .error e
      | .ok keyLen =>
        match encodeVal v vSub with
        | .error e => .error e
        | .ok valB =>
          match getLengthBufferOfItem valB with
          | .error e => .error e
          | .ok valLen =>
            match encodeMapParts rest kSub vSub with
            | .error e => .error e
            | .ok tail =>
              .ok (some keyLen :: keyB :: some valLen ::
                (match valB with
                 | some b => some b :: tail
                 | none => tail))
termination_by (sizeOf fields, 0)
end

/-- A decode-side type descriptor.  JS passes arrays `[code, subtypes]`; for
a list/set the single subtype entry is a bare element code, for a map each of
the two entries wraps one code — both are represented as a `TypeTree` whose
`code` field is what the JS reads. -/
structure TypeTree where
  code : DataType
  subs : Option (List TypeTree) := none

/-- Model of `decode` at a bare scalar code — the shape `decodeList` and
`decodeMap` recurse with (`decode(slice, [type])`).  A collection code here
makes the JS read `type[1][0]` of `undefined` and throw. -/
def decodeAtomic (bs : Buffer) (c : DataType) : Except String JsValue :=
  match c with
  | .custom => .ok (.buf bs)
  | .decimal => .ok (.buf bs)
  | .inet => .ok (.buf bs)
  | .varint => .ok (.integer (varintFromBytes bs))
  | .ascii => .ok (.str (String.mk (asciiDecode bs)))
  | .bigint => (longFromBytes bs).map JsValue.long
  | .counter => (longFromBytes bs).map JsValue.long
  | .timestamp =>
    match longFromBytes bs with
    | .error e => .error e
    | .ok v =>
      if v.natAbs ≤ 9007199254740992 then .ok (.date (some v))
      else .error "float model: Long.toNumber needs rounding"
  | .blob => .ok (.buf bs)
  | .boolean =>
    match bs with
    | [] => .error "RangeError: index out of range"
    | b :: _ => .ok (.bool (b != 0))
  | .double =>
    if bs.length < 8 then .error "RangeError: index out of range"
    else (fpIntOfBits 52 11 1023 (readBE (bs.take 8))).map JsValue.num
  | .float =>
    if bs.length < 4 then .error "RangeError: index out of range"
    else (fpIntOfBits 23 8 127 (readBE (bs.take 4))).map JsValue.num
  | .int => (readInt32BE bs).map JsValue.num
  | .uuid => .ok (.str (uuidUnparse bs))
  | .timeuuid => .ok (.str (uuidUnparse bs))
  | .text => .ok (.str (utf8Decode bs))
  | .varchar => .ok (.str (utf8Decode bs))
  | .list => .error "TypeError: cannot read 0 of undefined"
  | .set => .error "TypeError: cannot read 0 of undefined"
  | .map => .error "TypeError: cannot read 0 of undefined"

/-- Element loop of `decodeList` (85-92): per element a 2-byte length, then
that many bytes (`slice` clamps), decoded at the element code (an absent
code is JS `undefined` and hits the unknown-type throw). -/
def decodeListItems (bs : Buffer) (c : Option DataType) :
    Nat → Nat → Except String (List JsValue)
  | _, 0 => .ok []
  | offset, k + 1 =>
    match readUInt16BE bs offset with
    | .error e => .error e
    | .ok len =>
      match (match c with
             | some cc => decodeAtomic ((bs.drop (offset + 2)).take len) cc
             | none => Except.error "Error: unknown data type undefined") with
      | .error e => .error e
      | .ok v =>
        match decodeListItems bs c (offset + 2 + len) k with
        | .error e => .error e
        | .ok rest => .ok (v :: rest)

/-- Model of `decodeList` (79-94). -/
def decodeList (bs : Buffer) (c : Option DataType) : Except String (List JsValue) :=
  match readUInt16BE bs 0 with
  | .error e => .error e
  | .ok totalItems => decodeListItems bs c 2 totalItems

/-- Property update used by `decodeMap`'s `map[key] = value` (existing keys
keep their position, last write wins). -/
def objSet (fields : List (String × JsValue)) (k : String) (v : JsValue) :
    List (String × JsValue) :=
  match fields with
  | [] => [(k, v)]
  | (k1, v1) :: rest => if k1 = k then (k1, v) :: rest else (k1, v1) :: objSet rest k v

/-- JS property-key stringification of a decoded map key.  Only string keys
are modelled (date/number/Long keys stringify through their platform
`toString`, which no claim relies on). -/
def jsPropertyKey : JsValue → Except String String
  | .str s => .ok s
  | _ => .error "model: stringification of non-string map keys is not modelled"

/-- Entry loop of `decodeMap` (105-114). -/
def decodeMapItems (bs : Buffer) (ck cv : Option DataType) :
    Nat → Nat → List (String × JsValue) → Except String (List (String × JsValue))
  | _, 0, acc => .ok acc
  | offset, k + 1, acc =>
    match readUInt16BE bs offset with
    | .error e => .error e
    | .ok keyLen =>
      match (match ck with
             | some cc => decodeAtomic ((bs.drop (offset + 2)).take keyLen) cc
             | none => Except.error "Error: unknown data type undefined") with
      | .error e => .error e
      | .ok keyV =>
        match jsPropertyKey keyV with
        | .error e => .error e
        | .ok key =>
          match readUInt16BE bs (offset + 2 + keyLen) with
          | .error e => .error e
          | .ok valLen =>
            match (match cv with
                   | some cc => decodeAtomic ((bs.drop (offset + 2 + keyLen + 2)).take valLen) cc
                   | none => Except.error "Error: unknown data type undefined") with
            | .error e => .error e
            | .ok valV =>
              decodeMapItems bs ck cv (offset + 2 + keyLen + 2 + valLen) k (objSet acc key valV)

/-- Model of `decodeMap` (99-116). -/
def decodeMap (bs : Buffer) (ck cv : Option DataType) :
    Except String (List (String × JsValue)) :=
  match readUInt16BE bs 0 with
  | .error e => .error e
  | .ok totalItems => decodeMapItems bs ck cv 2 totalItems []

/-- Model of `decode` (`encoder.js` 16-62): `null` bytes decode to `null`;
otherwise dispatch on the descriptor's code. -/
def decode (bytes : Option Buffer) (t : TypeTree) : Except String JsValue :=
  match bytes with
  | none => .ok .null
  | some bs =>
    match t.code with
    | .list =>
      match t.subs with
      | none => .error "TypeError: cannot read 0 of undefined"
      | some l => (decodeList bs (l.head?.map (fun x => x.code))).map JsValue.arr
    | .set =>
      match t.subs with
      | none => .error "TypeError: cannot read 0 of undefined"
      | some l => (decodeList bs (l.head?.map (fun x => x.code))).map JsValue.arr
    | .map =>
      match t.subs with
      | none => .error "TypeError: cannot read 0 of undefined"
      | some l =>
        match l with
        | k :: v :: _ => (decodeMap bs (some k.code) (some v.code)).map JsValue.obj
        | _ => .error "TypeError: cannot read 0 of undefined"
    | c => decodeAtomic bs c

/-- The `options.routingKey` slot: a single buffer, or an array that may also
hold `null`s once the composer has installed raw encode results in it. -/
inductive RoutingKeyVal where
  | one (b : Buffer)
  | many (items : List (Option Buffer))
deriving DecidableEq

/-- The caller-owned `QueryOptions` object, as far as `setRoutingKey` reads
and writes it. -/
structure QOptions where
  hints : Option (List (Option TypeHint)) := none
  routingKey : Option RoutingKeyVal := none
  routingIndexes : Option (List Nat) := none

/-- Model of the composite-assembly loops of `setRoutingKey` (444-458): the
first `forEach` reads every `item.length` (throwing a TypeError at the first
`null` item), the second writes per item a bounds-checked `writeInt16BE`
2-byte length, the item bytes, and one zero byte. -/
def assembleComposite (items : List (Option Buffer)) : Except String Buffer :=
  match items.mapM (fun it => match it with
    | some b => Except.ok b
    | none => Except.error "TypeError: cannot read length of null") with
  | .error e => .error e
  | .ok bufs =>
    match bufs.mapM (fun b =>
      if b.length ≤ 32767 then Except.ok (beBytes 2 b.length ++ b ++ [0])
      else Except.error "TypeError: value is out of bounds") with
    | .error e => .error e
    | .ok frags => .ok frags.flatten

/-- Model of `setRoutingKey` (`encoder.js` 437-489).  The JS mutates
`options` in place and may throw; the model returns the final options object
paired with the thrown message (`none` = normal return).  The final
self-recursive call (line 488) re-enters the array branch with two or more
items and is inlined as `assembleComposite`; as in the JS, the mutation
installing the candidate array (line 487) survives a throw during that
assembly. -/
def setRoutingKey (params : List JsValue) (o : QOptions) : QOptions × Option String :=
  match o.routingKey with
  | some (.many items) =>
    match items with
    | [it] => ({ o with routingKey := it.map RoutingKeyVal.one }, none)
    | _ =>
      match assembleComposite items with
      | .ok b => ({ o with routingKey := some (.one b) }, none)
      | .error e => (o, some e)
  | some (.one _) => (o, none)
  | none =>
    match o.routingIndexes with
    | none => (o, none)
    | some idxs =>
      if params.isEmpty then (o, none)
      else
        match idxs.mapM (fun i =>
          encodeVal (params.getD i .undef) ((o.hints.getD []).getD i none)) with
        | .error e => (o, some e)
        | .ok cands =>
          match cands with
          | [] => (o, none)
          | [c] => ({ o with routingKey := c.map RoutingKeyVal.one }, none)
          | _ =>
            match assembleComposite cands with
            | .ok b =>
              ({ o with routingKey := some (.one b) }, none)
            | .error e => ({ o with routingKey := some (.many cands) }, some e)

/-- Scalar (non-collection) codes of the catalog. -/
def isScalar (c : DataType) : Bool :=
  match c with
  | .list => false
  | .set => false
  | .map => false
  | _ => true

/-- Decode descriptor of a scalar code (`[code]` on the JS side). -/
def descOf (c : DataType) : TypeTree := ⟨c, none⟩

/-- Representative host values accepted by each scalar encoder: the natural
host shape of the type, restricted to where the wire format is lossless
(e.g. ints in 32-bit range, numbers a float/double mantissa holds exactly,
canonical lower-case uuid strings, 7-bit ascii).  Values a scalar encoder
also accepts but visibly converts (numeric strings to the int path, buffers
to the uuid path, ...) decode to the converted value and are therefore not
representative of a round-trip. -/
def Rep : DataType → JsValue → Prop
  | .int, .num n => -2147483648 ≤ n ∧ n < 2147483648
  | .float, .num n => n.natAbs < 16777216
  | .double, .num n => n.natAbs < 9007199254740992
  | .boolean, .bool _ => True
  | .text, .str _ => True
  | .varchar, .str _ => True
  | .ascii, .str s => ∀ c ∈ s.data, c.toNat < 128
  | .uuid, .str s => ∃ b : Buffer, b.length = 16 ∧ (∀ x ∈ b, x < 256) ∧ s = uuidUnparse b
  | .timeuuid, .str s => ∃ b : Buffer, b.length = 16 ∧ (∀ x ∈ b, x < 256) ∧ s = uuidUnparse b
  | .blob, .buf _ => True
  | .custom, .buf _ => True
  | .decimal, .buf _ => True
  | .inet, .buf _ => True
  | .bigint, .long n => -9223372036854775808 ≤ n ∧ n < 9223372036854775808
  | .counter, .long n => -9223372036854775808 ≤ n ∧ n < 9223372036854775808
  | .timestamp, .date ms => ∃ v, ms = some v ∧ v.natAbs < 9007199254740992
  | .varint, .integer _ => True
  | _, _ => False

theorem string_mk_data (s : String) : String.mk s.data = s := rfl

theorem ratFloor_intCast (z : Int) : ((z : Rat)).floor = z := by
  rw [Rat.floor_def']
  simp

theorem rt_int (n : Int) (h1 : -2147483648 ≤ n) (h2 : n < 2147483648) :
    encodeVal (.num n) (some (.code .int)) = .ok (some (beBytes 4 ((n % 4294967296).toNat))) ∧
    decode (some (beBytes 4 ((n % 4294967296).toNat))) (descOf .int) = .ok (.num n) := by
  have hu : (n % 4294967296).toNat < 4294967296 := by omega
  constructor
  · simp only [encodeVal, encodeDispatch, isNullish, resolveHint, encodeInt, toNumberQ, toNumberLeaf,
      Bool.false_eq_true, if_false]
    rw [if_neg (show ¬(((n : Int) : Rat) > 2147483647 ∨ ((n : Int) : Rat) < -2147483648) by
      push_neg
      constructor
      · exact_mod_cast (show n ≤ (2147483647 : Int) by omega)
      · exact_mod_cast (show (-2147483648 : Int) ≤ n by omega))]
    simp only [Except.map]
    by_cases hn : n < 0
    · rw [if_pos (show ((n : Int) : Rat) < 0 by exact_mod_cast hn)]
      rw [show (4294967295 + ((n : Int) : Rat) + 1) = (((4294967296 + n : Int)) : Rat) by
        push_cast
        ring]
      rw [ratFloor_intCast]
      rw [show (4294967296 + n).toNat = (n % 4294967296).toNat by omega]
    · rw [if_neg (show ¬(((n : Int) : Rat) < 0) by
        push_neg
        exact_mod_cast (show (0 : Int) ≤ n by omega))]
      rw [ratFloor_intCast]
      rw [show n.toNat = (n % 4294967296).toNat by omega]
  · simp only [decode, descOf, decodeAtomic, readInt32BE, beBytes_length]
    rw [if_neg (by omega : ¬(4 < 4))]
    rw [List.take_of_length_le (by rw [beBytes_length] : (beBytes 4 ((n % 4294967296).toNat)).length ≤ 4)]
    rw [readBE_beBytes, Nat.mod_eq_of_lt (by omega : (n % 4294967296).toNat < 256 ^ 4)]
    simp only [Except.map]
    have : (if (n % 4294967296).toNat < 2147483648 then ((n % 4294967296).toNat : Int)
        else ((n % 4294967296).toNat : Int) - 4294967296) = n := by
      split <;> omega
    rw [this]

theorem rt_float (n : Int) (h : n.natAbs < 16777216) :
    ∃ b : Buffer, encodeVal (.num n) (some (.code .float)) = .ok (some b) ∧
      decode (some b) (descOf .float) = .ok (.num n) := by
  obtain ⟨bits, hb, hlt, hdec⟩ := fp_roundtrip 23 8 127 n (by norm_num) (by norm_num)
    (by norm_num; omega)
  have h32 : bits < 4294967296 := by norm_num at hlt; exact hlt
  refine ⟨beBytes 4 bits, ?_, ?_⟩
  · simp only [encodeVal, encodeDispatch, isNullish, resolveHint, encodeFloat, Bool.false_eq_true, if_false]
    rw [hb]
    rfl
  · simp only [decode, descOf, decodeAtomic, beBytes_length]
    rw [if_neg (by omega : ¬(4 < 4))]
    rw [List.take_of_length_le (le_of_eq (beBytes_length 4 bits))]
    rw [readBE_beBytes, Nat.mod_eq_of_lt (by norm_num; omega : bits < 256 ^ 4)]
    rw [hdec]
    rfl

theorem rt_double (n : Int) (h : n.natAbs < 9007199254740992) :
    ∃ b : Buffer, encodeVal (.num n) (some (.code .double)) = .ok (some b) ∧
      decode (some b) (descOf .double) = .ok (.num n) := by
  obtain ⟨bits, hb, hlt, hdec⟩ := fp_roundtrip 52 11 1023 n (by norm_num) (by norm_num)
    (by norm_num; omega)
  have h64 : bits < 18446744073709551616 := by norm_num at hlt; exact hlt
  refine ⟨beBytes 8 bits, ?_, ?_⟩
  · simp only [encodeVal, encodeDispatch, isNullish, resolveHint, encodeDouble, Bool.false_eq_true, if_false]
    rw [hb]
    rfl
  · simp only [decode, descOf, decodeAtomic, beBytes_length]
    rw [if_neg (by omega : ¬(8 < 8))]
    rw [List.take_of_length_le (le_of_eq (beBytes_length 8 bits))]
    rw [readBE_beBytes, Nat.mod_eq_of_lt (by norm_num; omega : bits < 256 ^ 8)]
    rw [hdec]
    rfl

theorem rt_boolean (b : Bool) :
    encodeVal (.bool b) (some (.code .boolean)) = .ok (some [if b then 1 else 0]) ∧
    decode (some [if b then 1 else 0]) (descOf .boolean) = .ok (.bool b) := by
  constructor
  · cases b <;>
      simp [encodeVal, encodeDispatch, isNullish, resolveHint, encodeBoolean, jsTruthy]
  · cases b <;> rfl

theorem rt_text (s : String) :
    encodeVal (.str s) (some (.code .text)) = .ok (some (utf8Encode s.data)) ∧
    decode (some (utf8Encode s.data)) (descOf .text) = .ok (.str s) := by
  constructor
  · simp only [encodeVal, encodeDispatch, isNullish, resolveHint, encodeString, Bool.false_eq_true, if_false]
    rfl
  · simp only [decode, descOf, decodeAtomic]
    rw [utf8_roundtrip]

theorem rt_varchar (s : String) :
    encodeVal (.str s) (some (.code .varchar)) = .ok (some (utf8Encode s.data)) ∧
    decode (some (utf8Encode s.data)) (descOf .varchar) = .ok (.str s) := by
  constructor
  · simp only [encodeVal, encodeDispatch, isNullish, resolveHint, encodeString, Bool.false_eq_true, if_false]
    rfl
  · simp only [decode, descOf, decodeAtomic]
    rw [utf8_roundtrip]

theorem rt_ascii (s : String) (h : ∀ c ∈ s.data, c.toNat < 128) :
    encodeVal (.str s) (some (.code .ascii)) = .ok (some (asciiEncode s.data)) ∧
    decode (some (asciiEncode s.data)) (descOf .ascii) = .ok (.str s) := by
  constructor
  · simp only [encodeVal, encodeDispatch, isNullish, resolveHint, encodeStringAscii, Bool.false_eq_true,
      if_false]
    rfl
  · simp only [decode, descOf, decodeAtomic]
    rw [ascii_roundtrip s.data h, string_mk_data]

theorem rt_uuid (bts : Buffer) (hlen : bts.length = 16) (hb : ∀ x ∈ bts, x < 256) :
    encodeVal (.str (uuidUnparse bts)) (some (.code .uuid)) =
      .ok (some (uuidParse (uuidUnparse bts))) ∧
    decode (some (uuidParse (uuidUnparse bts))) (descOf .uuid) =
      .ok (.str (uuidUnparse bts)) := by
  constructor
  · simp only [encodeVal, encodeDispatch, isNullish, resolveHint, encodeUuid, Bool.false_eq_true, if_false]
    rfl
  · simp only [decode, descOf, decodeAtomic]
    rw [uuid_roundtrip bts hlen hb]

theorem rt_timeuuid (bts : Buffer) (hlen : bts.length = 16) (hb : ∀ x ∈ bts, x < 256) :
    encodeVal (.str (uuidUnparse bts)) (some (.code .timeuuid)) =
      .ok (some (uuidParse (uuidUnparse bts))) ∧
    decode (some (uuidParse (uuidUnparse bts))) (descOf .timeuuid) =
      .ok (.str (uuidUnparse bts)) := by
  constructor
  · simp only [encodeVal, encodeDispatch, isNullish, resolveHint, encodeUuid, Bool.false_eq_true, if_false]
    rfl
  · simp only [decode, descOf, decodeAtomic]
    rw [uuid_roundtrip bts hlen hb]

theorem rt_blob (c : DataType) (hc : c = .blob ∨ c = .custom ∨ c = .decimal ∨ c = .inet)
    (bb : Buffer) :
    encodeVal (.buf bb) (some (.code c)) = .ok (some bb) ∧
    decode (some bb) (descOf c) = .ok (.buf bb) := by
  rcases hc with rfl | rfl | rfl | rfl <;>
    exact ⟨by simp only [encodeVal, encodeDispatch, isNullish, resolveHint, encodeBlob, Bool.false_eq_true,
      if_false]; rfl, rfl⟩

theorem rt_bigint (n : Int) (h1 : -9223372036854775808 ≤ n)
    (h2 : n < 9223372036854775808) :
    encodeVal (.long n) (some (.code .bigint)) = .ok (some (longToBytes n)) ∧
    decode (some (longToBytes n)) (descOf .bigint) = .ok (.long n) := by
  constructor
  · simp only [encodeVal, encodeDispatch, isNullish, resolveHint, encodeBigNumber, Bool.false_eq_true,
      if_false]
    rfl
  · simp only [decode, descOf, decodeAtomic]
    rw [long_roundtrip n h1 h2]
    rfl

theorem rt_counter (n : Int) (h1 : -9223372036854775808 ≤ n)
    (h2 : n < 9223372036854775808) :
    encodeVal (.long n) (some (.code .counter)) = .ok (some (longToBytes n)) ∧
    decode (some (longToBytes n)) (descOf .counter) = .ok (.long n) := by
  constructor
  · simp only [encodeVal, encodeDispatch, isNullish, resolveHint, encodeBigNumber, Bool.false_eq_true,
      if_false]
    rfl
  · simp only [decode, descOf, decodeAtomic]
    rw [long_roundtrip n h1 h2]
    rfl

theorem rt_timestamp (ms : Int) (h : ms.natAbs < 9007199254740992) :
    encodeVal (.date (some ms)) (some (.code .timestamp)) = .ok (some (longToBytes ms)) ∧
    decode (some (longToBytes ms)) (descOf .timestamp) = .ok (.date (some ms)) := by
  have hfn : longFromNumber ms = ms := by
    rw [longFromNumber, if_neg (by omega), if_neg (by omega)]
  constructor
  · simp only [encodeVal, encodeDispatch, isNullish, resolveHint, encodeTimestamp, encodeBigNumber,
      Bool.false_eq_true, if_false, hfn]
    rfl
  · simp only [decode, descOf, decodeAtomic]
    rw [long_roundtrip ms (by omega) (by omega)]
    simp only []
    rw [if_pos (by omega : ms.natAbs ≤ 9007199254740992)]

theorem rt_varint (n : Int) :
    encodeVal (.integer n) (some (.code .varint)) = .ok (some (varintToBytes n)) ∧
    decode (some (varintToBytes n)) (descOf .varint) = .ok (.integer n) := by
  constructor
  · simp only [encodeVal, encodeDispatch, isNullish, resolveHint, encodeVarint, Bool.false_eq_true, if_false]
    rfl
  · simp only [decode, descOf, decodeAtomic]
    rw [varint_roundtrip]


/-- C1: for every scalar type code `h` in the catalog and every representative
host value `v` accepted by the encoder of `h` (`Rep`), decoding the encoding
round-trips: `decode(encode(v, h), descriptor(h))` is value-equal to `v`. -/
theorem c1_scalar_roundtrip (c : DataType) (v : JsValue) (hsc : isScalar c = true) (hrep : Rep c v) :
    ∃ b : Buffer, encodeVal v (some (.code c)) = .ok (some b) ∧
      decode (some b) (descOf c) = .ok v := by
  cases c <;> cases v <;> simp only [Rep] at hrep <;> try exact hrep.elim
  case custom.buf bb => exact ⟨bb, rt_blob .custom (Or.inr (Or.inl rfl)) bb⟩
  case ascii.str s => exact ⟨_, rt_ascii s hrep⟩
  case bigint.long n => exact ⟨_, rt_bigint n hrep.1 hrep.2⟩
  case blob.buf bb => exact ⟨bb, rt_blob .blob (Or.inl rfl) bb⟩
  case boolean.bool b => exact ⟨_, rt_boolean b⟩
  case counter.long n => exact ⟨_, rt_counter n hrep.1 hrep.2⟩
  case decimal.buf bb => exact ⟨bb, rt_blob .decimal (Or.inr (Or.inr (Or.inl rfl))) bb⟩
  case double.num n => exact rt_double n hrep
  case float.num n => exact rt_float n hrep
  case int.num n => exact ⟨_, rt_int n hrep.1 hrep.2⟩
  case text.str s => exact ⟨_, rt_text s⟩
  case timestamp.date ms =>
    obtain ⟨mv, rfl, hmv⟩ := hrep
    exact ⟨_, rt_timestamp mv hmv⟩
  case uuid.str s =>
    obtain ⟨bts, hlen, hbb, rfl⟩ := hrep
    exact ⟨_, rt_uuid bts hlen hbb⟩
  case varchar.str s => exact ⟨_, rt_varchar s⟩
  case varint.integer n => exact ⟨_, rt_varint n⟩
  case timeuuid.str s =>
    obtain ⟨bts, hlen, hbb, rfl⟩ := hrep
    exact ⟨_, rt_timeuuid bts hlen hbb⟩
  case inet.buf bb => exact ⟨bb, rt_blob .inet (Or.inr (Or.inr (Or.inr rfl))) bb⟩


/-- Witness for C1: the int code at value 7. -/
theorem c1_scalar_roundtrip_witness :
    ∃ b : Buffer, encodeVal (.num 7) (some (.code .int)) = .ok (some b) ∧
      decode (some b) (descOf .int) = .ok (.num 7) :=
  c1_scalar_roundtrip .int (.num 7) rfl (by simp only [Rep]; omega)

/-- C5: `encode` returns `null` for a `null` or `undefined` value under every
hint of any accepted shape (numeric code, name string, or descriptor —
`Option TypeHint`, `none` covering the no-hint call `encode()`): it never
throws there and never returns a zero-length buffer, because the null check
precedes all hint processing. -/
theorem c5_null_undefined_encode_null (h : Option TypeHint) :
    encodeVal .null h = .ok none ∧ encodeVal .undef h = .ok none := by
  constructor <;> (simp only [encodeVal]; rfl)

/-- C6: the first-match rules of type inference — numbers infer as double
(never int or float), Dates as timestamp, 64-bit integers as bigint,
arbitrary-precision integers as varint, strings as text except those
matching the case-insensitive 8-4-4-4-12 hex uuid grammar (`isUuidString`)
which infer as uuid, buffers as blob, arrays as list, booleans as boolean,
and a plain key/value object yields no match. -/
theorem c6_guessDataType_rules :
    (∀ n : Int, guessDataType (.num n) = some .double) ∧
    (∀ ms : Option Int, guessDataType (.date ms) = some .timestamp) ∧
    (∀ n : Int, guessDataType (.long n) = some .bigint) ∧
    (∀ n : Int, guessDataType (.integer n) = some .varint) ∧
    (∀ s : String, isUuidString s = true → guessDataType (.str s) = some .uuid) ∧
    (∀ s : String, isUuidString s = false → guessDataType (.str s) = some .text) ∧
    (∀ b : List Nat, guessDataType (.buf b) = some .blob) ∧
    (∀ l : List JsValue, guessDataType (.arr l) = some .list) ∧
    (∀ b : Bool, guessDataType (.bool b) = some .boolean) ∧
    (∀ fields : List (String × JsValue), guessDataType (.obj fields) = none) := by
  refine ⟨fun n => rfl, fun ms => rfl, fun n => rfl, fun n => rfl, ?_, ?_, fun b => rfl,
    fun l => rfl, fun b => rfl, fun fs => rfl⟩
  · intro s hs
    simp [guessDataType, hs]
  · intro s hs
    simp [guessDataType, hs]

/-- Witness for C6 at concrete values: a canonical uuid string, an ordinary
string, a number and an empty object. -/
theorem c6_guessDataType_rules_witness :
    guessDataType (.str "2d5db74c-c2da-4e59-b5ec-d8ad3d0aefb9") = some .uuid ∧
    guessDataType (.str "a string") = some .text ∧
    guessDataType (.num 1) = some .double ∧
    guessDataType (.obj []) = none :=
  ⟨c6_guessDataType_rules.2.2.2.2.1 _ (by decide),
   c6_guessDataType_rules.2.2.2.2.2.1 _ (by decide),
   c6_guessDataType_rules.1 1,
   c6_guessDataType_rules.2.2.2.2.2.2.2.2.2 []⟩

/-- C10: an object with no own enumerable properties encodes under a map
hint to the 2-byte big-endian zero count `0x0000` — not to `null`, unlike an
empty array under a list or set hint. -/
theorem c10_empty_map_zero_count :
    encodeVal (.obj []) (some (.code .map)) = .ok (some [0, 0]) ∧
    encodeVal (.arr []) (some (.code .list)) = .ok none ∧
    encodeVal (.arr []) (some (.code .set)) = .ok none := by
  refine ⟨?_, ?_, ?_⟩ <;>
    (simp only [encodeVal, encodeDispatch, encodeMapVal, encodeMapParts, encodeList]
     rfl)

/-- C8 counterexample: the claim as stated is false — with
`routingKey = [buf([1])]`, `routingIndexes` absent and `params` empty both
the second and third no-op conditions hold, yet `setRoutingKey` collapses
the one-element array to its fragment and so does mutate the options. -/
theorem c8_counterexample :
    (setRoutingKey [] { routingKey := some (.many [some [1]]) }).1.routingKey ≠
      some (.many [some [1]]) ∧
    (setRoutingKey [] { routingKey := some (.many [some [1]]) }).1.routingKey =
      some (.one [1]) := by
  constructor
  · intro h
    exact absurd h (by decide)
  · rfl

/-- C8 (amended): `setRoutingKey` is a no-op — options returned unchanged and
nothing thrown — whenever `options.routingKey` is NOT an array of fragments
and, in addition, it is a single buffer, or `options.routingIndexes` is
absent, or the params array is empty.  (The original claim omitted the first
condition; when `routingKey` is an array the array-collapse rule fires even
though `routingIndexes` is absent or `params` is empty.) -/
theorem c8_noop_amended (params : List JsValue) (o : QOptions)
    (hnotarr : ∀ items, o.routingKey ≠ some (.many items))
    (hcond : (∃ b, o.routingKey = some (.one b)) ∨ o.routingIndexes = none ∨ params = []) :
    setRoutingKey params o = (o, none) := by
  rcases hrk : o.routingKey with _ | rv
  · rcases hcond with ⟨b, hb⟩ | hri | hp
    · rw [hrk] at hb
      exact absurd hb (by simp)
    · simp [setRoutingKey, hrk, hri]
    · subst hp
      rcases hri : o.routingIndexes with _ | idxs <;> simp [setRoutingKey, hrk, hri]
  · rcases rv with b | items
    · simp [setRoutingKey, hrk]
    · exact absurd hrk (hnotarr items)

/-- Witness for C8 (amended): a single-buffer routing key is left alone. -/
theorem c8_noop_amended_witness :
    setRoutingKey [.num 1, .str "text"] { routingKey := some (.one [1, 2, 3, 4]) } =
      ({ routingKey := some (.one [1, 2, 3, 4]) }, none) :=
  c8_noop_amended [.num 1, .str "text"] { routingKey := some (.one [1, 2, 3, 4]) }
    (fun items h => by simp at h) (Or.inl ⟨[1, 2, 3, 4], rfl⟩)

theorem mapM_extract (frags : List Buffer) :
    ((frags.map some).mapM (fun it => match it with
      | some b => Except.ok b
      | none => Except.error "TypeError: cannot read length of null") :
      Except String (List Buffer)) = .ok frags := by
  induction frags with
  | nil => rfl
  | cons b t ih =>
    rw [List.map_cons, List.mapM_cons, ih]
    rfl

theorem mapM_frame (frags : List Buffer) (h : ∀ b ∈ frags, b.length ≤ 32767) :
    ((frags.mapM (fun b => if b.length ≤ 32767
        then Except.ok (beBytes 2 b.length ++ b ++ [0])
        else Except.error "TypeError: value is out of bounds")) :
      Except String (List Buffer)) =
    .ok (frags.map (fun b => beBytes 2 b.length ++ b ++ [0])) := by
  induction frags with
  | nil => rfl
  | cons b t ih =>
    rw [List.mapM_cons, ih (fun x hx => h x (List.mem_cons_of_mem b hx)),
      if_pos (h b (List.mem_cons_self b t))]
    rfl

theorem assembleComposite_ok (frags : List Buffer) (h : ∀ b ∈ frags, b.length ≤ 32767) :
    assembleComposite (frags.map some) =
      .ok ((frags.map (fun b => beBytes 2 b.length ++ b ++ [0])).flatten) := by
  simp only [assembleComposite]
  rw [mapM_extract]
  simp only []
  rw [mapM_frame frags h]

theorem srk_oversize_throws (b : Buffer) (hb : 32767 < b.length) (o : QOptions)
    (hrk : o.routingKey = some (.many [some b, some [1]])) (params : List JsValue) :
    setRoutingKey params o = (o, some "TypeError: value is out of bounds") := by
  have hx : (([some b, some [1]] : List (Option Buffer)).mapM (fun it => match it with
      | some bb => Except.ok bb
      | none => Except.error "TypeError: cannot read length of null") :
      Except String (List Buffer)) = .ok [b, [1]] := by
    rw [List.mapM_cons, List.mapM_cons]
    rfl
  have h1 : assembleComposite [some b, some [1]] =
      .error "TypeError: value is out of bounds" := by
    simp only [assembleComposite]
    rw [hx]
    simp only []
    rw [List.mapM_cons, if_neg (by omega : ¬b.length ≤ 32767)]
    rfl
  simp only [setRoutingKey, hrk]
  rw [h1]

/-- C2 counterexample: a fragment of 32768 bytes makes the signed 16-bit
length write throw, so an array of two fragments is NOT replaced by the
framed concatenation there — `setRoutingKey` throws and leaves the array
unchanged. -/
theorem c2_counterexample :
    setRoutingKey []
        { routingKey := some (.many [some (List.replicate 32768 0), some [1]]) } =
      ({ routingKey := some (.many [some (List.replicate 32768 0), some [1]]) },
        some "TypeError: value is out of bounds") :=
  srk_oversize_throws (List.replicate 32768 0)
    (by rw [List.length_replicate]; omega) _ rfl []

/-- C2 (amended): for an options object whose `routingKey` is an array of
fragment buffers, a one-element array collapses to its fragment unchanged,
and an array of two or more fragments — provided each is at most 32767 bytes,
longer ones make the 16-bit length write throw — is replaced by the
concatenation, per fragment in order, of a 2-byte big-endian length, the
fragment bytes and one zero byte; in particular
`[buf(01), buf(02), buf(0303)]` yields hex `00010100000102000002030300`. -/
theorem c2_array_routing_key_amended (params : List JsValue) (o : QOptions) :
    (∀ b, o.routingKey = some (.many [some b]) →
      setRoutingKey params o = ({ o with routingKey := some (.one b) }, none)) ∧
    (∀ frags : List Buffer, o.routingKey = some (.many (frags.map some)) →
      2 ≤ frags.length → (∀ b ∈ frags, b.length ≤ 32767) →
      setRoutingKey params o = ({ o with routingKey := some (.one ((frags.map
        (fun b => beBytes 2 b.length ++ b ++ [0])).flatten)) }, none)) ∧
    setRoutingKey [.num 1, .str "text"]
        { routingKey := some (.many [some [1], some [2], some [3, 3]]) } =
      ({ routingKey := some (.one [0, 1, 1, 0, 0, 1, 2, 0, 0, 2, 3, 3, 0]) }, none) := by
  refine ⟨?_, ?_, by rfl⟩
  · intro b hrk
    simp [setRoutingKey, hrk]
  · intro frags hrk hlen hsz
    match frags, hlen with
    | b1 :: b2 :: rest, _ =>
      simp only [List.map_cons] at hrk
      simp only [setRoutingKey, hrk]
      rw [show (some b1 :: some b2 :: rest.map some : List (Option Buffer)) =
        ((b1 :: b2 :: rest : List Buffer)).map some by simp]
      rw [assembleComposite_ok _ hsz]

/-- Witness for C2 (amended): a one-element fragment array collapses. -/
theorem c2_array_routing_key_amended_witness :
    setRoutingKey [] { routingKey := some (.many [some [5, 6]]) } =
      ({ routingKey := some (.one [5, 6]) }, none) :=
  (c2_array_routing_key_amended [] { routingKey := some (.many [some [5, 6]]) }).1
    [5, 6] rfl

theorem mapM_error_of_mem (f : Nat → Except String (Option Buffer)) (l : List Nat)
    (h : ∃ i ∈ l, ∃ e, f i = .error e) :
    ∃ e, l.mapM f = .error e ∧ ∃ i ∈ l, f i = .error e := by
  induction l with
  | nil => simp at h
  | cons a t ih =>
    rcases hfa : f a with e | x
    · refine ⟨e, ?_, a, List.mem_cons_self a t, hfa⟩
      rw [List.mapM_cons, hfa]
      rfl
    · obtain ⟨i, hi, e, hfe⟩ := h
      have hit : i ∈ t := by
        rcases List.mem_cons.mp hi with rfl | h2
        · rw [hfa] at hfe
          exact absurd hfe (by simp)
        · exact h2
      obtain ⟨e2, hm, i2, hi2, hf2⟩ := ih ⟨i, hit, e, hfe⟩
      refine ⟨e2, ?_, i2, List.mem_cons_of_mem a hi2, hf2⟩
      rw [List.mapM_cons, hfa, hm]
      rfl

/-- C9: if encoding any parameter selected by `routingIndexes` fails, the
whole `setRoutingKey` call throws — the options object is returned exactly
as it was (no routing key installed) and the thrown message is an encode
error of one of the selected parameters. -/
theorem c9_encode_failure_aborts (params : List JsValue) (o : QOptions)
    (idxs : List Nat)
    (hrk : o.routingKey = none)
    (hri : o.routingIndexes = some idxs)
    (hp : params ≠ [])
    (hfail : ∃ i ∈ idxs, ∃ e,
      encodeVal (params.getD i .undef) ((o.hints.getD []).getD i none) = .error e) :
    (setRoutingKey params o).1 = o ∧
    ∃ e, (setRoutingKey params o).2 = some e ∧
      ∃ i ∈ idxs, encodeVal (params.getD i .undef) ((o.hints.getD []).getD i none) =
        .error e := by
  obtain ⟨e, hm, i, hi, hf⟩ := mapM_error_of_mem
    (fun i => encodeVal (params.getD i .undef) ((o.hints.getD []).getD i none)) idxs hfail
  have hne : params.isEmpty = false := by
    rcases params with _ | ⟨p, ps⟩
    · exact absurd rfl hp
    · rfl
  rw [setRoutingKey]
  simp only [hrk, hri, hne, Bool.false_eq_true, if_false, hm]
  refine ⟨?_, e, ?_, i, hi, hf⟩ <;> first
  | rfl
  | trivial

/-- Witness for C9: a plain object parameter cannot be type-guessed, so the
composer throws and installs nothing. -/
theorem c9_encode_failure_aborts_witness :
    (setRoutingKey [.obj []] { routingIndexes := some [0] }).1 =
      { routingIndexes := some [0] } ∧
    ∃ e, (setRoutingKey [.obj []] { routingIndexes := some [0] }).2 = some e ∧
      ∃ i ∈ [0], encodeVal ([JsValue.obj []].getD i .undef)
        ((({ routingIndexes := some [0] } : QOptions).hints.getD []).getD i none) =
        .error e :=
  c9_encode_failure_aborts [.obj []] { routingIndexes := some [0] } [0] rfl rfl
    (by simp)
    ⟨0, by simp, "TypeError: target data type could not be guessed", by
      simp only [List.getD, Option.getD, List.get?]
      simp only [encodeVal, encodeDispatch, isNullish, guessDataType]
      rfl⟩

theorem mapM_extract_err_of_none (items : List (Option Buffer)) (h : none ∈ items) :
    ((items.mapM (fun it => match it with
      | some b => Except.ok b
      | none => Except.error "TypeError: cannot read length of null")) :
      Except String (List Buffer)) = .error "TypeError: cannot read length of null" := by
  induction items with
  | nil => simp at h
  | cons a t ih =>
    rcases a with _ | b
    · rw [List.mapM_cons]
      rfl
    · have ht : none ∈ t := by
        rcases List.mem_cons.mp h with h1 | h1
        · exact absurd h1 (by simp)
        · exact h1
      rw [List.mapM_cons, ih ht]
      rfl

theorem assembleComposite_none (items : List (Option Buffer)) (h : none ∈ items) :
    assembleComposite items = .error "TypeError: cannot read length of null" := by
  simp only [assembleComposite]
  rw [mapM_extract_err_of_none items h]

theorem srk_null_multi (params : List JsValue) (o : QOptions) (idxs : List Nat)
    (cands : List (Option Buffer))
    (hrk : o.routingKey = none) (hri : o.routingIndexes = some idxs)
    (hne : params.isEmpty = false)
    (hm : idxs.mapM (fun i => encodeVal (params.getD i .undef)
      ((o.hints.getD []).getD i none)) = .ok cands)
    (hlen : 2 ≤ cands.length) (hnone : none ∈ cands) :
    setRoutingKey params o =
      ({ o with routingKey := some (.many cands) },
        some "TypeError: cannot read length of null") := by
  match cands, hlen with
  | c1 :: c2 :: rest, _ =>
    rw [setRoutingKey]
    simp only [hrk, hri, hne, Bool.false_eq_true, if_false, hm]
    rw [assembleComposite_none _ hnone]

/-- C4 counterexample: a `null` parameter selected by `routingIndexes`
produces a `null` candidate; with two candidates the claimed composite
framing does not happen — the assembly throws on the `null` fragment (and
the options object is left holding the raw candidate array). -/
theorem c4_counterexample :
    setRoutingKey [.null, .buf [1]] { routingIndexes := some [0, 1] } =
      ({ routingIndexes := some [0, 1], routingKey := some (.many [none, some [1]]) },
        some "TypeError: cannot read length of null") := by
  have h0 : encodeVal .null none = .ok none := by
    simp only [encodeVal]
    rfl
  have h1 : encodeVal (.buf [1]) none = .ok (some [1]) := by
    simp only [encodeVal, encodeDispatch]
    rfl
  have hm : (([0, 1] : List Nat).mapM (fun i =>
      encodeVal ([JsValue.null, .buf [1]].getD i .undef)
        (((({ routingIndexes := some [0, 1] } : QOptions)).hints.getD []).getD i none)) :
      Except String (List (Option Buffer))) = .ok [none, some [1]] := by
    rw [List.mapM_cons, List.mapM_cons, List.mapM_nil]
    rw [show encodeVal ([JsValue.null, .buf [1]].getD 0 .undef)
        ((((({ routingIndexes := some [0, 1] } : QOptions))).hints.getD []).getD 0 none) =
        .ok none from h0]
    rw [show encodeVal ([JsValue.null, .buf [1]].getD 1 .undef)
        ((((({ routingIndexes := some [0, 1] } : QOptions))).hints.getD []).getD 1 none) =
        .ok (some [1]) from h1]
    rfl
  exact srk_null_multi [.null, .buf [1]] { routingIndexes := some [0, 1] } [0, 1]
    [none, some [1]] rfl rfl rfl hm (by norm_num) (by simp)

/-- C4 (amended): with `routingKey` absent, `routingIndexes` present and
`params` non-empty, the selected parameters are encoded in index order with
the matching hint slot; when the candidates are exactly the encodings of a
list of buffers (no `null` candidate — a `null` parameter makes the assembly
throw instead), a single candidate is installed as the routing key raw and
unframed, and two or more candidates — each at most 32767 bytes — are
installed as the composite framing: per candidate a 2-byte big-endian
length, the fragment, and a zero byte. -/
theorem c4_amended (params : List JsValue) (o : QOptions) (idxs : List Nat)
    (bufs : List Buffer)
    (hrk : o.routingKey = none) (hri : o.routingIndexes = some idxs)
    (hne : params.isEmpty = false)
    (hm : idxs.mapM (fun i => encodeVal (params.getD i .undef)
      ((o.hints.getD []).getD i none)) = .ok (bufs.map some))
    (hsz : ∀ b ∈ bufs, b.length ≤ 32767) :
    (∀ b, bufs = [b] → setRoutingKey params o =
      ({ o with routingKey := some (.one b) }, none)) ∧
    (2 ≤ bufs.length → setRoutingKey params o =
      ({ o with routingKey := some (.one ((bufs.map
        (fun b => beBytes 2 b.length ++ b ++ [0])).flatten)) }, none)) := by
  constructor
  · rintro b rfl
    simp only [List.map_cons, List.map_nil] at hm
    rw [setRoutingKey]
    simp only [hrk, hri, hne, Bool.false_eq_true, if_false, hm]
    rfl
  · intro hlen
    match bufs, hlen, hm, hsz with
    | b1 :: b2 :: rest, _, hm, hsz =>
      simp only [List.map_cons] at hm
      rw [setRoutingKey]
      simp only [hrk, hri, hne, Bool.false_eq_true, if_false, hm]
      rw [show (some b1 :: some b2 :: rest.map some : List (Option Buffer)) =
        ((b1 :: b2 :: rest : List Buffer)).map some by simp]
      rw [assembleComposite_ok _ hsz]

/-- Witness for C4 (amended): `routingIndexes = [0, 2]`,
`hints = [int, string, int]`, `params = [1, "yeah", 2]` gives two framed
fragments for positions 0 and 2 (skipping position 1):
hex `0004 00000001 00 0004 00000002 00`. -/
theorem c4_amended_witness :
    setRoutingKey [.num 1, .str "yeah", .num 2]
        { hints := some [some (.name "int"), some (.name "string"), some (.name "int")],
          routingIndexes := some [0, 2] } =
      ({ hints := some [some (.name "int"), some (.name "string"), some (.name "int")],
         routingIndexes := some [0, 2],
         routingKey := some (.one [0, 4, 0, 0, 0, 1, 0, 0, 4, 0, 0, 0, 2, 0]) }, none) := by
  have e1 : encodeVal (.num 1) (some (.name "int")) = .ok (some [0, 0, 0, 1]) := by
    simp only [encodeVal, encodeDispatch]
    rfl
  have e2 : encodeVal (.num 2) (some (.name "int")) = .ok (some [0, 0, 0, 2]) := by
    simp only [encodeVal, encodeDispatch]
    rfl
  have hm : (([0, 2] : List Nat).mapM (fun i =>
      encodeVal ([JsValue.num 1, .str "yeah", .num 2].getD i .undef)
        ((([some (TypeHint.name "int"), some (.name "string"), some (.name "int")] :
          List (Option TypeHint))).getD i none)) :
      Except String (List (Option Buffer))) = .ok [some [0, 0, 0, 1], some [0, 0, 0, 2]] := by
    rw [List.mapM_cons, List.mapM_cons, List.mapM_nil]
    rw [show encodeVal ([JsValue.num 1, .str "yeah", .num 2].getD 0 .undef)
        ((([some (TypeHint.name "int"), some (.name "string"), some (.name "int")] :
          List (Option TypeHint))).getD 0 none) = .ok (some [0, 0, 0, 1]) from e1]
    rw [show encodeVal ([JsValue.num 1, .str "yeah", .num 2].getD 2 .undef)
        ((([some (TypeHint.name "int"), some (.name "string"), some (.name "int")] :
          List (Option TypeHint))).getD 2 none) = .ok (some [0, 0, 0, 2]) from e2]
    rfl
  have h := (c4_amended [.num 1, .str "yeah", .num 2]
    { hints := some [some (.name "int"), some (.name "string"), some (.name "int")],
      routingIndexes := some [0, 2] } [0, 2] [[0, 0, 0, 1], [0, 0, 0, 2]]
    rfl rfl rfl hm (by decide)).2 (by decide)
  rw [h]
  rfl

theorem encodeInt_ok_of_rat (v : JsValue) (n : Int)
    (hq : toNumberQ v = some ((n : Int) : Rat))
    (h1 : -2147483648 ≤ n) (h2 : n < 2147483648) :
    encodeInt v = .ok (beBytes 4 ((n % 4294967296).toNat)) := by
  simp only [encodeInt, hq]
  rw [if_neg (show ¬(((n : Int) : Rat) > 2147483647 ∨ ((n : Int) : Rat) < -2147483648) by
    push_neg
    constructor
    · exact_mod_cast (show n ≤ (2147483647 : Int) by omega)
    · exact_mod_cast (show (-2147483648 : Int) ≤ n by omega))]
  by_cases hn : n < 0
  · rw [if_pos (show ((n : Int) : Rat) < 0 by exact_mod_cast hn)]
    rw [show (4294967295 + ((n : Int) : Rat) + 1) = (((4294967296 + n : Int)) : Rat) by
      push_cast
      ring]
    rw [ratFloor_intCast]
    rw [show (4294967296 + n).toNat = (n % 4294967296).toNat by omega]
  · rw [if_neg (show ¬(((n : Int) : Rat) < 0) by
      push_neg
      exact_mod_cast (show (0 : Int) ≤ n by omega))]
    rw [ratFloor_intCast]
    rw [show n.toNat = (n % 4294967296).toNat by omega]

theorem encodeVal_int_dispatch (v : JsValue) (hnull : isNullish v = false) :
    encodeVal v (some (.code .int)) = (encodeInt v).map some := by
  simp only [encodeVal, encodeDispatch, resolveHint, hnull, Bool.false_eq_true, if_false]

/-- C7 counterexample: `writeInt32BE` bounds-checks its argument, so a
Number outside the signed 32-bit range does not produce a 4-byte buffer —
the int path throws. -/
theorem c7_counterexample :
    encodeVal (.num 2147483648) (some (.code .int)) =
      .error "TypeError: value is out of bounds" := by
  rw [encodeVal_int_dispatch (.num 2147483648) rfl]
  simp only [encodeInt, toNumberQ, toNumberLeaf]
  rw [if_pos (Or.inl (show ((2147483648 : Int) : Rat) > 2147483647 by
    push_cast
    norm_num))]
  rfl

/-- C7 (amended): under the int hint, every Number and every numeric string
whose numeric value is integral and inside the signed 32-bit range encodes
as the 4-byte big-endian two's complement of that value (out-of-range
values make the bounds-checked write throw); every NaN-coercing input
throws a type error; `encode(-1)` is hex `ffffffff` and `encode(0)` is hex
`00000000`. -/
theorem c7_int_encoding (n : Int) (s : String) (v : JsValue) :
    (-2147483648 ≤ n → n < 2147483648 →
      encodeVal (.num n) (some (.code .int)) =
        .ok (some (beBytes 4 ((n % 4294967296).toNat)))) ∧
    (jsStringToNumber s = some ((n : Int) : Rat) → -2147483648 ≤ n → n < 2147483648 →
      encodeVal (.str s) (some (.code .int)) =
        .ok (some (beBytes 4 ((n % 4294967296).toNat)))) ∧
    (isNullish v = false → toNumberQ v = none →
      encodeVal v (some (.code .int)) = .error "TypeError: expected Number") ∧
    encodeVal (.num (-1)) (some (.code .int)) = .ok (some [255, 255, 255, 255]) ∧
    encodeVal (.num 0) (some (.code .int)) = .ok (some [0, 0, 0, 0]) := by
  refine ⟨fun h1 h2 => (rt_int n h1 h2).1, fun hs h1 h2 => ?_, fun hnull hq => ?_, ?_, ?_⟩
  · rw [encodeVal_int_dispatch (.str s) rfl,
      encodeInt_ok_of_rat (.str s) n (by simp only [toNumberQ, toNumberLeaf]; exact hs) h1 h2]
    rfl
  · rw [encodeVal_int_dispatch v hnull]
    simp only [encodeInt, hq]
    rfl
  · rw [(rt_int (-1) (by norm_num) (by norm_num)).1]
    rfl
  · rw [(rt_int 0 (by norm_num) (by norm_num)).1]
    rfl

/-- Witness for C7 (amended): the hex string `"0x7b"` (123) encodes to
`00 00 00 7b`, and the non-numeric string `"nope"` throws. -/
theorem c7_int_encoding_witness :
    encodeVal (.str "0x7b") (some (.code .int)) = .ok (some [0, 0, 0, 123]) ∧
    encodeVal (.str "nope") (some (.code .int)) = .error "TypeError: expected Number" := by
  have h := c7_int_encoding 123 "0x7b" (.str "nope")
  constructor
  · rw [h.2.1 (by decide) (by decide) (by decide)]
    rfl
  · exact h.2.2.1 rfl (by decide)

/-- C3 (code bug): an empty array under a list hint encodes to `null` as
claimed, but a `null` element inside a non-empty list is NOT framed as a
zero-length prefix with no body: `encodeList` pushes the un-encodable
`null` part as-is into `Buffer.concat`, which throws reading its `length`. -/
theorem c3_null_element_throws :
    encodeVal (.arr []) (some (.info .list (some [some (.code .int)]))) = .ok none ∧
    encodeVal (.arr [.null]) (some (.info .list (some [some (.code .int)]))) =
      .error "TypeError: cannot read length of null" := by
  constructor
  · simp only [encodeVal, encodeDispatch, resolveHint, encodeList, isNullish,
      Bool.false_eq_true, if_false]
    rfl
  · simp only [encodeVal, encodeDispatch, resolveHint, encodeList, encodeListParts,
      isNullish, Bool.false_eq_true, if_false]
    rfl

end CqlEnc
